import Mathlib

/-!
# PubSubSQL: dispatcher, client and JSON responses

A shallow embedding of three parts of the repository:

* `src/server/data_service.go`: the dispatcher `dataService.onSqlRequest`;
* `src/client/client.go`: the client (`Execute`, `NextRecord`, `Disconnect`, ...);
* `src/server/response.go`: the JSON responses (`toNetworkReadyJSON`);
* `src/parser/parser_test.go`: the `tokensProducerConsumer` of the tests, with the lexer and
  the parser they exercise, which are modelled from the specification.

Pointers are addresses into an explicit heap, channels are queues, unsigned 32-bit
integers are natural numbers reduced modulo `2 ^ 32`, and Go `int` is `Int`.
-/

namespace PubSubSQL

/-! ## Dispatcher (`src/server/data_service.go`) -/

/-- The `request` interface as far as `onSqlRequest` distinguishes its implementations:
a `*sqlRequest` carries the name of its table, every other implementation is `other`. -/
inductive request where
  | sqlRequest (table : String) (body : Nat)
  | other (body : Nat)
deriving DecidableEq, Repr

/-- `requestItem`: a request and the address of its response sender. -/
structure requestItem where
  req : request
  sender : Nat
deriving DecidableEq, Repr

/-- Modelled from the spec: the `table` type and `newTable` (table.go is not among the
sources). A table actor has a name and an inbound channel of request items; the channel
is the queue `requests` (oldest first) with capacity `capacity`, and `running` records that
the event loop has been started. -/
structure table where
  name : String
  requests : List requestItem
  capacity : Nat
  running : Bool
deriving DecidableEq, Repr

/-- Modelled from the spec: `newTable(name)` builds a table without channel or event loop. -/
def newTable (name : String) : table :=
  { name := name, requests := [], capacity := 0, running := false }

/-- `dataService`: `tables` maps a name to the address of a table (`map[string]*table`,
latest binding first). -/
structure dataService where
  tables : List (String × Nat)
  bufferSize : Nat
deriving DecidableEq, Repr

/-- The dispatcher together with the heap of tables allocated so far; a `*table` is an
index into `heap`. -/
structure ServiceState where
  d : dataService
  heap : List table
deriving DecidableEq, Repr

/-- `newDataService(bufferSize, stoper)`. -/
def newDataService (bufferSize : Nat) : ServiceState :=
  { d := { tables := [], bufferSize := bufferSize }, heap := [] }

/-- `d.tables[name]`: the address registered under `name`, `none` for the nil pointer. -/
def dataService.lookup (d : dataService) (name : String) : Option Nat :=
  (d.tables.find? (fun p => p.1 == name)).map Prod.snd

/-- `tbl.requests <- item` on the table at address `a`. -/
def sendTo (heap : List table) (a : Nat) (item : requestItem) : List table :=
  heap.modify (fun t => { t with requests := t.requests ++ [item] }) a

/-- `dataService.onSqlRequest`. The result is the state after the call together with the
address of the table the item was forwarded to; `Except.error` is the panic of the
default branch. -/
def onSqlRequest (s : ServiceState) (item : requestItem) : Except String (ServiceState × Nat) :=
  match item.req with
  | request.sqlRequest tableName _ =>
    match s.d.lookup tableName with
    | some tbl =>
      -- forward sql request to the table
      .ok ({ s with heap := sendTo s.heap tbl item }, tbl)
    | none =>
      -- auto create table and enter table event loop
      let fresh : table :=
        { newTable tableName with capacity := s.d.bufferSize, running := true }
      let tbl := s.heap.length
      let heap := s.heap ++ [fresh]
      .ok ({ s with heap := sendTo heap tbl item }, tbl)
  | request.other _ => .error "Unsuported sql request"

/-! ## Client (`src/client/client.go`) -/

/-- `responseData` holds the unmarshaled result of a JSON response. A `map[string]string`
of `Data` is the list of its bindings. -/
structure responseData where
  Status : String
  Msg : String
  Action : String
  Id : String
  PubSubId : String
  Rows : Int
  Fromrow : Int
  Torow : Int
  Data : List (List (String × String))
deriving DecidableEq, Repr

/-- The zero value of `responseData`. -/
def responseData.zero : responseData :=
  { Status := "", Msg := "", Action := "", Id := "", PubSubId := "",
    Rows := 0, Fromrow := 0, Torow := 0, Data := [] }

/-- `responseData.reset`; the source leaves `PubSubId` as it is. -/
def responseData.reset (this : responseData) : responseData :=
  { this with Status := "", Msg := "", Action := "", Id := "",
              Rows := 0, Fromrow := 0, Torow := 0, Data := [] }

/-- `json.Unmarshal(bytes, &this.response)` of the Go standard library, which is not part of
the repository: from the payload and the response before the call to the response after
the call and the error (`none` for `nil`). The client is parametrised by it. -/
abbrev Unmarshal := String → responseData → responseData × Option String

/-- `NetworkHeader` of a wire frame: `request_id` and `length`, both unsigned 32-bit. -/
structure NetworkHeader where
  MessageSize : Nat
  RequestId : Nat
deriving DecidableEq, Repr

/-- What one call of `ReadMessage` delivers: a frame, or an error with its message. -/
inductive ReadOutcome where
  | frame (header : NetworkHeader) (bytes : String)
  | failure (err : String)
deriving DecidableEq, Repr

/-- Modelled from the spec: `NetMessageReaderWriter` (its file is not among the sources).
`valid` says that a connection is attached, `incoming` is what the successive calls of
`ReadMessage` will deliver, `outcomes` holds the errors of the successive calls of
`WriteHeaderAndMessage` (`none` for `nil`; calls beyond the list succeed), and `written`
logs the frames handed to `WriteHeaderAndMessage`, oldest first. -/
structure NetMessageReaderWriter where
  valid : Bool
  incoming : List ReadOutcome
  outcomes : List (Option String)
  written : List (Nat × String)
deriving DecidableEq, Repr

/-- Modelled from the spec: `Valid()`. -/
def NetMessageReaderWriter.Valid (rw : NetMessageReaderWriter) : Bool := rw.valid

/-- Modelled from the spec: `ReadMessage()` delivers the next frame, its request id read as an
unsigned 32-bit number; when the peer has nothing more to send the read fails with `EOF`. -/
def NetMessageReaderWriter.ReadMessage (rw : NetMessageReaderWriter) :
    Except String (NetworkHeader × String) × NetMessageReaderWriter :=
  match rw.incoming with
  | [] => (.error "EOF", rw)
  | .frame header bytes :: rest =>
    (.ok ({ header with RequestId := header.RequestId % 2 ^ 32 }, bytes),
      { rw with incoming := rest })
  | .failure err :: rest => (.error err, { rw with incoming := rest })

/-- Modelled from the spec: `WriteHeaderAndMessage(requestId, bytes)` frames the payload under
the request id and reports the error of the write, if any. -/
def NetMessageReaderWriter.WriteHeaderAndMessage (rw : NetMessageReaderWriter)
    (requestId : Nat) (bytes : String) : Option String × NetMessageReaderWriter :=
  (rw.outcomes.head?.join,
    { rw with outcomes := rw.outcomes.tail, written := rw.written ++ [(requestId, bytes)] })

/-- Modelled from the spec: `Close()` detaches the connection. -/
def NetMessageReaderWriter.Close (rw : NetMessageReaderWriter) : NetMessageReaderWriter :=
  { rw with valid := false }

/-- The delivery of a frame carrying `bytes` under the request id `id`. -/
def frameOf (id : Nat) (bytes : String) : ReadOutcome :=
  .frame { MessageSize := bytes.utf8ByteSize, RequestId := id } bytes

/-- The message of the run-time panic of Go on a call through a nil interface value. -/
def nilDereference : String :=
  "runtime error: invalid memory address or nil pointer dereference"

/-- A value of the interface type `Client`, as far as the struct `client` relies on it: the
methods of the interface that client.go does not define on `client` and that are therefore
promoted from the embedded field. -/
structure ClientMethods where
  Value : String → String
  ValueByColumnOrdinal : Int → String

/-- The `client` struct; `Client` is the embedded interface value (`none` for nil),
`requestId` is a `uint32`, `rawjson` a byte slice whose nil value is the empty string,
`record` an `int`. -/
structure client where
  Client : Option ClientMethods := none
  rw : NetMessageReaderWriter
  requestId : Nat
  err : String
  rawjson : String
  response : responseData
  record : Int

/-- `NewClient()`: the zero value of `client`. -/
def NewClient : client :=
  { Client := none,
    rw := { valid := false, incoming := [], outcomes := [], written := [] },
    requestId := 0, err := "", rawjson := "", response := responseData.zero, record := 0 }

namespace client

/-- `client.resetError`. -/
def resetError (this : client) : client := { this with err := "" }

/-- `client.reset`. -/
def reset (this : client) : client :=
  { this.resetError with response := this.response.reset, rawjson := "", record := -1 }

/-- `client.setErrorString`. -/
def setErrorString (this : client) (err : String) : client :=
  { this.reset with err := err }

/-- `client.setError`; an `error` is represented by its message. -/
def setError (this : client) (err : String) : client := this.setErrorString err

/-- `client.Ok`. -/
def Ok (this : client) : Bool := this.err == ""

/-- `client.Failed`. -/
def Failed (this : client) : Bool := !this.Ok

/-- `client.Error`. -/
def Error (this : client) : String := this.err

/-- `client.JSON`. -/
def JSON (this : client) : String := this.rawjson

/-- `client.Action`. -/
def Action (this : client) : String := this.response.Action

/-- `client.Id`. -/
def Id (this : client) : String := this.response.Id

/-- `client.PubSubId`. -/
def PubSubId (this : client) : String := this.response.PubSubId

/-- `client.RecordCount`. -/
def RecordCount (this : client) : Int := this.response.Rows

/-- `client.Value`: client.go defines no such method on `client`, so the call is the
promoted method of the embedded interface value; `Except.error` is the panic of a call
through nil. -/
def Value (this : client) (column : String) : Except String String :=
  match this.Client with
  | none => .error nilDereference
  | some methods => .ok (methods.Value column)

/-- `client.ValueByColumnOrdinal`: promoted from the embedded interface value in the same
way. -/
def ValueByColumnOrdinal (this : client) (ordinal : Int) : Except String String :=
  match this.Client with
  | none => .error nilDereference
  | some methods => .ok (methods.ValueByColumnOrdinal ordinal)

/-- `client.write`. -/
def write (this : client) (message : String) : Bool × client :=
  let this := { this with requestId := (this.requestId + 1) % 2 ^ 32 }
  if this.rw.Valid then
    match this.rw.WriteHeaderAndMessage this.requestId message with
    | (none, rw) => (true, { this with rw := rw })
    | (some err, rw) => (false, ({ this with rw := rw }).setError err)
  else
    (false, this.setErrorString "Not connected")

/-- `client.read`; `none` stands for the result `nil, nil, false`. -/
def read (this : client) : Option (NetworkHeader × String) × client :=
  if this.rw.Valid then
    match this.rw.ReadMessage with
    | (.ok frame, rw) => (some frame, { this with rw := rw })
    | (.error err, rw) => (none, ({ this with rw := rw }).setError err)
  else
    (none, this.setErrorString "Not connected")

/-- `client.unmarshalJSON`. -/
def unmarshalJSON (u : Unmarshal) (this : client) (bytes : String) : Bool × client :=
  let this := { this with rawjson := bytes }
  match u bytes this.response with
  | (response, some err) => (false, ({ this with response := response }).setError err)
  | (response, none) =>
    let this := { this with response := response }
    if this.response.Status != "ok" then
      (false, this.setErrorString this.response.Msg)
    else
      (true, this)

/-- The loop of `client.Execute`, entered with `ok` true. Every iteration that does not
return consumes one incoming frame, so `fuel` above the number of incoming frames is never
used up (`executeLoop_fuel`). -/
def executeLoop (u : Unmarshal) : Nat → client → Bool × client
  | 0, this => (false, this)
  | fuel + 1, this =>
    match this.read with
    | (none, this) => (false, this)
    | (some (header, bytes), this) =>
      if header.RequestId = this.requestId then
        -- response we are waiting for
        this.unmarshalJSON u bytes
      else if header.RequestId = 0 then
        -- pubsub action, save it and skip it for now
        executeLoop u fuel this
      else if header.RequestId < this.requestId then
        (false, this.setErrorString "previous result was not fully read")
      else
        (false, this.setErrorString "protocol error invalid requestId")

/-- `client.Execute`. -/
def Execute (u : Unmarshal) (this : client) (command : String) : Bool × client :=
  match this.reset.write command with
  | (false, this) => (false, this)
  | (true, this) => executeLoop u (this.rw.incoming.length + 1) this

/-- The loop of `client.NextRecord`. Every iteration that does not return consumes one
incoming frame (`nextRecordLoop_fuel`). -/
def nextRecordLoop (u : Unmarshal) : Nat → client → Bool × client
  | 0, this => (false, this)
  | fuel + 1, this =>
    if this.Ok then
      -- no result set
      if this.response.Rows = 0 then (false, this) else
      let this :=
        if this.response.Fromrow = 0 ∨ this.response.Torow = 0 then
          this.setErrorString "protocol error invalid fromrow, torow values"
        else this
      -- the current record is valid
      let this := { this with record := this.record + 1 }
      if this.record ≤ this.response.Torow - this.response.Fromrow then (true, this) else
      -- we reached the end of result set
      if this.response.Rows = this.response.Torow then (false, this) else
      -- get another batch
      match this.reset.read with
      | (none, this) => (false, this)
      | (some (header, bytes), this) =>
        -- should not happen but check anyway
        if header.RequestId ≠ this.requestId then
          (false, this.setErrorString "protocol error")
        else
          -- we got another batch unmarshall the data
          nextRecordLoop u fuel (this.unmarshalJSON u bytes).2
    else (false, this)

/-- `client.NextRecord`. -/
def NextRecord (u : Unmarshal) (this : client) : Bool × client :=
  nextRecordLoop u (this.rw.incoming.length + 1) this

/-- `client.Disconnect`. -/
def Disconnect (this : client) : client :=
  let this := (this.write "close").2
  -- write may generate error so we reset after instead
  let this := this.reset
  { this with rw := this.rw.Close }

/-- Modelled from the spec: `Set(conn, bufferSize)` attaches the connection. -/
def attach (conn : NetMessageReaderWriter) : NetMessageReaderWriter := { conn with valid := true }

/-- `client.Connect`; the outcome of `net.Dial` is a parameter: its error message, or the
connection, given by what it will deliver and how the writes on it will end. -/
def Connect (this : client) (dial : Except String NetMessageReaderWriter) : Bool × client :=
  let this := this.Disconnect
  match dial with
  | .error err => (false, this.setError err)
  | .ok conn => (true, { this with rw := attach conn })

/-- The client once `Execute` has reset it, written `command` successfully and read the
incoming frames down to `rest`. -/
def sent (this : client) (command : String) (rest : List ReadOutcome) : client :=
  { this.reset with
    requestId := (this.requestId + 1) % 2 ^ 32,
    rw := { this.rw with incoming := rest, outcomes := this.rw.outcomes.tail,
                         written := this.rw.written ++
                           [((this.requestId + 1) % 2 ^ 32, command)] } }

/-- Successive calls of `NextRecord`: the results of `n` calls and the client after them. -/
def nextRecords (u : Unmarshal) : Nat → client → List Bool × client
  | 0, this => ([], this)
  | n + 1, this =>
    ((this.NextRecord u).1 :: (nextRecords u n (this.NextRecord u).2).1,
      (nextRecords u n (this.NextRecord u).2).2)

end client

/-! ### A decoder for the payloads of the server

`jsonUnmarshal` is an executable instance of `Unmarshal` for the documents the server
sends: one object whose members are strings, integers, or an array of objects with string
members. Member names are matched with the fields of `responseData` without regard to
case, unknown members are skipped, and a member that is absent leaves its field as it
was, as `encoding/json` does. It is used to run the client on concrete payloads. -/

namespace Decode

/-- The value of a member of a response object. -/
inductive Value where
  | str (s : String)
  | num (i : Int)
  | rows (r : List (List (String × String)))
deriving DecidableEq, Repr

def dquote : Char := Char.ofNat 34
def backslash : Char := Char.ofNat 92
def slash : Char := Char.ofNat 47
def lbrace : Char := Char.ofNat 123
def rbrace : Char := Char.ofNat 125
def lbracket : Char := Char.ofNat 91
def rbracket : Char := Char.ofNat 93
def colon : Char := Char.ofNat 58
def comma : Char := Char.ofNat 44
def minus : Char := Char.ofNat 45

/-- JSON whitespace: space, line feed, carriage return, tab. -/
def isWs (c : Char) : Bool :=
  c = Char.ofNat 32 || c = Char.ofNat 10 || c = Char.ofNat 13 || c = Char.ofNat 9

def skipWs : List Char → List Char
  | [] => []
  | c :: cs => if isWs c then skipWs cs else c :: cs

/-- The rest of a string after its opening quote; the escapes of quote, backslash and
slash are decoded. -/
def scanString : List Char → List Char → Option (String × List Char)
  | _, [] => none
  | acc, [c] => if c = dquote then some (String.mk acc.reverse, []) else none
  | acc, c :: e :: cs =>
    if c = dquote then some (String.mk acc.reverse, e :: cs)
    else if c = backslash then
      if e = dquote ∨ e = backslash ∨ e = slash then scanString (e :: acc) cs else none
    else scanString (c :: acc) (e :: cs)

def parseString : List Char → Option (String × List Char)
  | [] => none
  | c :: cs => if c = dquote then scanString [] cs else none

def scanDigits : Nat → List Char → Nat × List Char
  | n, [] => (n, [])
  | n, c :: cs => if c.isDigit then scanDigits (10 * n + (c.toNat - 48)) cs else (n, c :: cs)

def parseInt : List Char → Option (Int × List Char)
  | [] => none
  | c :: cs =>
    if c = minus then
      match cs with
      | [] => none
      | d :: _ =>
        if d.isDigit then some (-((scanDigits 0 cs).1 : Int), (scanDigits 0 cs).2) else none
    else if c.isDigit then some (((scanDigits 0 (c :: cs)).1 : Int), (scanDigits 0 (c :: cs)).2)
    else none

/-- The members of an object with string values, from the first member name on, up to and
including the closing brace. -/
def parseStrMembers : Nat → List Char → List (String × String) →
    Option (List (String × String) × List Char)
  | 0, _, _ => none
  | fuel + 1, cs, acc =>
    match parseString (skipWs cs) with
    | none => none
    | some (k, r1) =>
      match skipWs r1 with
      | [] => none
      | c :: r2 =>
        if c = colon then
          match parseString (skipWs r2) with
          | none => none
          | some (v, r3) =>
            match skipWs r3 with
            | [] => none
            | d :: r4 =>
              if d = comma then parseStrMembers fuel r4 (acc ++ [(k, v)])
              else if d = rbrace then some (acc ++ [(k, v)], r4)
              else none
        else none

/-- An object with string values. -/
def parseStrObject (fuel : Nat) (cs : List Char) : Option (List (String × String) × List Char) :=
  match skipWs cs with
  | [] => none
  | c :: r1 =>
    if c = lbrace then
      match skipWs r1 with
      | [] => none
      | d :: r2 => if d = rbrace then some ([], r2) else parseStrMembers fuel (d :: r2) []
    else none

/-- The elements of an array of objects, from the first element on, up to and including
the closing bracket. -/
def parseRowList : Nat → List Char → List (List (String × String)) →
    Option (List (List (String × String)) × List Char)
  | 0, _, _ => none
  | fuel + 1, cs, acc =>
    match parseStrObject cs.length cs with
    | none => none
    | some (o, r1) =>
      match skipWs r1 with
      | [] => none
      | d :: r2 =>
        if d = comma then parseRowList fuel r2 (acc ++ [o])
        else if d = rbracket then some (acc ++ [o], r2)
        else none

/-- A member value: a string, an integer, or an array of objects with string values. -/
def parseValue (cs : List Char) : Option (Value × List Char) :=
  match skipWs cs with
  | [] => none
  | c :: r1 =>
    if c = dquote then (scanString [] r1).map (fun p => (Value.str p.1, p.2))
    else if c = lbracket then
      match skipWs r1 with
      | [] => none
      | d :: r2 =>
        if d = rbracket then some (Value.rows [], r2)
        else (parseRowList (d :: r2).length (d :: r2) []).map (fun p => (Value.rows p.1, p.2))
    else (parseInt (c :: r1)).map (fun p => (Value.num p.1, p.2))

/-- The members of the response object, from the first member name on, up to and including
the closing brace. -/
def parseMembers : Nat → List Char → List (String × Value) →
    Option (List (String × Value) × List Char)
  | 0, _, _ => none
  | fuel + 1, cs, acc =>
    match parseString (skipWs cs) with
    | none => none
    | some (k, r1) =>
      match skipWs r1 with
      | [] => none
      | c :: r2 =>
        if c = colon then
          match parseValue r2 with
          | none => none
          | some (v, r3) =>
            match skipWs r3 with
            | [] => none
            | d :: r4 =>
              if d = comma then parseMembers fuel r4 (acc ++ [(k, v)])
              else if d = rbrace then some (acc ++ [(k, v)], r4)
              else none
        else none

/-- A whole document: one object and nothing after it. -/
def parseDocument (s : String) : Option (List (String × Value)) :=
  match skipWs s.data with
  | [] => none
  | c :: r1 =>
    if c = lbrace then
      match skipWs r1 with
      | [] => none
      | d :: r2 =>
        let body :=
          if d = rbrace then some ([], r2) else parseMembers (d :: r2).length (d :: r2) []
        match body with
        | none => none
        | some (ms, r3) => if skipWs r3 = [] then some ms else none
    else none

/-- The error of a member whose value does not have the type of its field. -/
def typeError (key : String) : String :=
  "json: cannot unmarshal the value of " ++ key ++ " into its field"

/-- Stores one member into the field it names; the first error is kept and decoding goes on. -/
def assign (acc : responseData × Option String) (m : String × Value) :
    responseData × Option String :=
  let key := String.mk (m.1.data.map Char.toLower)
  let bad : responseData × Option String := (acc.1, acc.2.orElse (fun _ => some (typeError key)))
  if key = "status" then
    match m.2 with | .str v => ({ acc.1 with Status := v }, acc.2) | _ => bad
  else if key = "msg" then
    match m.2 with | .str v => ({ acc.1 with Msg := v }, acc.2) | _ => bad
  else if key = "action" then
    match m.2 with | .str v => ({ acc.1 with Action := v }, acc.2) | _ => bad
  else if key = "id" then
    match m.2 with | .str v => ({ acc.1 with Id := v }, acc.2) | _ => bad
  else if key = "pubsubid" then
    match m.2 with | .str v => ({ acc.1 with PubSubId := v }, acc.2) | _ => bad
  else if key = "rows" then
    match m.2 with | .num v => ({ acc.1 with Rows := v }, acc.2) | _ => bad
  else if key = "fromrow" then
    match m.2 with | .num v => ({ acc.1 with Fromrow := v }, acc.2) | _ => bad
  else if key = "torow" then
    match m.2 with | .num v => ({ acc.1 with Torow := v }, acc.2) | _ => bad
  else if key = "data" then
    match m.2 with | .rows v => ({ acc.1 with Data := v }, acc.2) | _ => bad
  else acc

end Decode

/-- The decoder as an instance of `Unmarshal`: a document that is not well formed is
rejected before anything is stored. -/
def jsonUnmarshal : Unmarshal := fun bytes response =>
  match Decode.parseDocument bytes with
  | none => (response, some "invalid character in JSON input")
  | some members => members.foldl Decode.assign (response, none)

/-! ### Result sets split into batches -/

/-- One frame of a result set: its payload and the `fromrow` and `torow` it carries. -/
structure Batch where
  bytes : String
  fromrow : Int
  torow : Int
deriving DecidableEq, Repr

/-- The frames continue a result set of `R` rows from row `start` on: every frame starts at
the row after the last row of the frame before it, is not empty, and the last frame ends
at row `R`. -/
def isBatching (R : Int) : Int → List Batch → Bool
  | start, [] => start == R + 1
  | start, f :: fs => f.fromrow == start && decide (f.fromrow ≤ f.torow) &&
      isBatching R (f.torow + 1) fs

/-- The payload of the frame unmarshals without error into an `ok` response with `rows = R`
and the `fromrow` and `torow` of the frame. -/
def Decodes (u : Unmarshal) (R : Int) (f : Batch) : Prop :=
  ∀ r : responseData, (u f.bytes r).2 = none ∧ (u f.bytes r).1.Status = "ok" ∧
    (u f.bytes r).1.Rows = R ∧ (u f.bytes r).1.Fromrow = f.fromrow ∧
    (u f.bytes r).1.Torow = f.torow

/-- The number of records of the result set that `NextRecord` has not yet moved to. -/
def remaining (c : client) : Nat :=
  (c.response.Rows - c.response.Fromrow - c.record).toNat

/-- The client is reading a result set of `R` rows: it is not failed, its current batch is
a non-empty range of rows within the result set, the cursor is inside the batch unless the
batch is the last one, and the frames `frames` that complete the result set are the next
deliveries of the connection, followed by `rest`. -/
structure Cursor (u : Unmarshal) (R : Int) (rest : List ReadOutcome) (frames : List Batch)
    (c : client) : Prop where
  ok : c.err = ""
  valid : c.rw.valid = true
  rows : c.response.Rows = R
  from_pos : 1 ≤ c.response.Fromrow
  from_le : c.response.Fromrow ≤ c.response.Torow
  rec_ge : -1 ≤ c.record
  rec_le : c.record ≤ c.response.Torow - c.response.Fromrow ∨ c.response.Torow = R
  incoming : c.rw.incoming = frames.map (fun f => frameOf c.requestId f.bytes) ++ rest
  id_lt : c.requestId < 2 ^ 32
  chain : isBatching R (c.response.Torow + 1) frames = true
  decode : ∀ f ∈ frames, Decodes u R f

/-! ### Concrete payloads and clients -/

/-- A new client connected to a server that will deliver `incoming`; all writes succeed. -/
def connectedTo (incoming : List ReadOutcome) : client :=
  (NewClient.Connect
    (.ok { valid := false, incoming := incoming, outcomes := [], written := [] })).2

/-- The error response with an empty message. -/
def errEmptyPayload : String := "\x7b\"status\":\"err\",\"msg\":\"\"\x7d"

/-- The error response of the spec's second scenario. -/
def errPayload : String := "\x7b\"status\":\"err\",\"msg\":\"column ticker is not unique\"\x7d"

/-- The response to an insert of the spec's first scenario. -/
def insertPayload : String := "\x7b\"status\":\"ok\",\"action\":\"insert\",\"id\":\"0\"\x7d"

/-- A pubsub `add` event. -/
def addEventPayload : String :=
  "\x7b\"status\":\"ok\",\"action\":\"add\",\"pubsubid\":\"1\",\"rows\":1," ++
  "\"data\":[\x7b\"id\":\"0\",\"ticker\":\"IBM\"\x7d]\x7d"

/-- The response to a select without matching rows. -/
def emptySelectPayload : String :=
  "\x7b\"status\":\"ok\",\"action\":\"select\",\"rows\":0,\"data\":[]\x7d"

/-- The first frame of a select of three rows sent in two batches: rows 1 to 2. -/
def selectBatch1 : Batch :=
  { bytes := "\x7b\"status\":\"ok\",\"action\":\"select\",\"rows\":3,\"fromrow\":1,\"torow\":2," ++
             "\"data\":[\x7b\"ticker\":\"IBM\"\x7d,\x7b\"ticker\":\"MSFT\"\x7d]\x7d",
    fromrow := 1, torow := 2 }

/-- The second frame of that select: row 3. -/
def selectBatch2 : Batch :=
  { bytes := "\x7b\"status\":\"ok\",\"action\":\"select\",\"rows\":3,\"fromrow\":3,\"torow\":3," ++
             "\"data\":[\x7b\"ticker\":\"GOOG\"\x7d]\x7d",
    fromrow := 3, torow := 3 }

/-! ## JSON responses (`src/server/response.go`) -/

/-- One call on a `JSONBuilder`. -/
inductive JSONEvent where
  | beginObject
  | endObject
  | beginArray
  | endArray
  | nameSeparator
  | valueSeparator
  | string (s : String)
  | nameValue (name value : String)
  | nameIntValue (name : String) (value : Int)
deriving DecidableEq, Repr

/-- Modelled from the spec: `JSONBuilder` (its file is not among the sources; the spec leaves
the mechanics of the builder open and fixes the shape of the responses). A builder is
represented by the calls made on it, oldest first; `JSONText` gives the text they stand
for. -/
abbrev JSONBuilder := List JSONEvent

namespace JSONBuilder

/-- Modelled from the spec: `networkReadyJSONBuilder()`, a builder without content. -/
def networkReady : JSONBuilder := []

/-- Modelled from the spec: `beginObject()`. -/
def beginObject (b : JSONBuilder) : JSONBuilder := b ++ [.beginObject]
/-- Modelled from the spec: `endObject()`. -/
def endObject (b : JSONBuilder) : JSONBuilder := b ++ [.endObject]
/-- Modelled from the spec: `beginArray()`. -/
def beginArray (b : JSONBuilder) : JSONBuilder := b ++ [.beginArray]
/-- Modelled from the spec: `endArray()`. -/
def endArray (b : JSONBuilder) : JSONBuilder := b ++ [.endArray]
/-- Modelled from the spec: `nameSeparator()`. -/
def nameSeparator (b : JSONBuilder) : JSONBuilder := b ++ [.nameSeparator]
/-- Modelled from the spec: `valueSeparator()`. -/
def valueSeparator (b : JSONBuilder) : JSONBuilder := b ++ [.valueSeparator]
/-- Modelled from the spec: `string(s)`. -/
def string (b : JSONBuilder) (s : String) : JSONBuilder := b ++ [.string s]
/-- Modelled from the spec: `nameValue(name, value)`, a member with a string value. -/
def nameValue (b : JSONBuilder) (name value : String) : JSONBuilder :=
  b ++ [.nameValue name value]
/-- Modelled from the spec: `nameIntValue(name, value)`, a member with an integer value. -/
def nameIntValue (b : JSONBuilder) (name : String) (value : Int) : JSONBuilder :=
  b ++ [.nameIntValue name value]
/-- Modelled from the spec: `getNetworkBytes()`; the bytes of the payload are represented by
the calls that produced them. -/
def getNetworkBytes (b : JSONBuilder) : List JSONEvent := b

/-- The json helper function `ok`. -/
def ok (builder : JSONBuilder) : JSONBuilder := builder.nameValue "status" "ok"

/-- The json helper function `id`. -/
def id (builder : JSONBuilder) (id : String) : JSONBuilder := builder.nameValue "id" id

/-- The json helper function `action`. -/
def action (builder : JSONBuilder) (action : String) : JSONBuilder :=
  builder.nameValue "action" action

end JSONBuilder

/-- Modelled from the spec: the text of one builder call, as in the literal payloads of the
spec (`\x7b"status":"ok","action":"update","rows":1\x7d`). -/
def JSONEvent.text : JSONEvent → String
  | .beginObject => "\x7b"
  | .endObject => "\x7d"
  | .beginArray => "["
  | .endArray => "]"
  | .nameSeparator => ":"
  | .valueSeparator => ","
  | .string s => "\"" ++ s ++ "\""
  | .nameValue name value => "\"" ++ name ++ "\":\"" ++ value ++ "\""
  | .nameIntValue name value => "\"" ++ name ++ "\":" ++ toString value

/-- Modelled from the spec: the text of a payload. -/
def JSONText (events : List JSONEvent) : String :=
  String.join (events.map JSONEvent.text)

/-- `strconv.FormatUint(i, base)` of the Go standard library; a `uint64` is a natural
number. -/
def FormatUint (i : Nat) (base : Nat) : String := (Nat.toDigits base i).asString

/-- Modelled from the spec: `column`, with its name and its ordinal in the table. -/
structure column where
  name : String
  ordinal : Nat
deriving DecidableEq, Repr

/-- Modelled from the spec: `record`, the values of a row by ordinal. -/
structure record where
  values : List String
deriving DecidableEq, Repr

/-- Modelled from the spec: `record.getValue(ordinal)`; a column added after the row was
written reads as the empty string. -/
def record.getValue (r : record) (ordinal : Nat) : String := r.values.getD ordinal ""

/-- Modelled from the spec: `record.setValue(ordinal, val)`; the row is extended with empty
strings when it is too short. -/
def record.setValue (r : record) (ordinal : Nat) (val : String) : record :=
  if ordinal < r.values.length then { values := r.values.set ordinal val }
  else { values := r.values ++ List.replicate (ordinal - r.values.length) "" ++ [val] }

/-- `responseStatusType`. -/
inductive responseStatusType where
  | responseStatusOk
  | responseStatusErr
deriving DecidableEq, Repr

/-- A value of the interface type `response`, given by what its three methods return. The
response structs embed such a value; `none` is the nil interface. -/
structure response where
  getResponseStatus : responseStatusType
  toNetworkReadyJSON : List JSONEvent
  String : String
deriving DecidableEq, Repr

/-- `errorResponse`. -/
structure errorResponse where
  response : Option response := none
  msg : String
deriving DecidableEq, Repr

/-- `newErrorResponse`. -/
def newErrorResponse (msg : String) : errorResponse := { msg := msg }

/-- `errorResponse.getResponsStatus`, spelled as in the source. -/
def errorResponse.getResponsStatus (_this : errorResponse) : responseStatusType :=
  .responseStatusErr

/-- `errorResponse.getResponseStatus`, the method of the interface `response`: the source
defines no method of this name on `errorResponse`, so the call is the promoted method of the
embedded interface value; `Except.error` is the panic of a call through nil. -/
def errorResponse.getResponseStatus (this : errorResponse) : Except String responseStatusType :=
  match this.response with
  | none => .error nilDereference
  | some r => .ok r.getResponseStatus

/-- `okResponse`. -/
structure okResponse where
  response : Option response := none
deriving DecidableEq, Repr

/-- `newOkResponse`. -/
def newOkResponse : okResponse := {}

/-- `okResponse.getResponsStatus`, spelled as in the source. -/
def okResponse.getResponsStatus (_this : okResponse) : responseStatusType :=
  .responseStatusOk

/-- `okResponse.getResponseStatus`, promoted from the embedded interface value. -/
def okResponse.getResponseStatus (this : okResponse) : Except String responseStatusType :=
  match this.response with
  | none => .error nilDereference
  | some r => .ok r.getResponseStatus

/-- `okResponse.toNetworkReadyJSON`. -/
def okResponse.toNetworkReadyJSON (_this : okResponse) : List JSONEvent :=
  let builder := JSONBuilder.networkReady
  let builder := builder.beginObject
  let builder := builder.ok
  let builder := builder.endObject
  builder.getNetworkBytes

/-- `errorResponse.toNetworkReadyJSON`. -/
def errorResponse.toNetworkReadyJSON (this : errorResponse) : List JSONEvent :=
  let builder := JSONBuilder.networkReady
  let builder := builder.beginObject
  let builder := builder.nameValue "status" "err"
  let builder := builder.valueSeparator
  let builder := builder.nameValue "msg" this.msg
  let builder := builder.endObject
  builder.getNetworkBytes

/-- `sqlInsertResponse` is a response for sql insert statement. -/
structure sqlInsertResponse where
  response : Option response := none
  id : String
deriving DecidableEq, Repr

/-- `sqlInsertResponse.getResponsStatus`, spelled as in the source. -/
def sqlInsertResponse.getResponsStatus (_this : sqlInsertResponse) : responseStatusType :=
  .responseStatusOk

/-- `sqlInsertResponse.getResponseStatus`, promoted from the embedded interface value. -/
def sqlInsertResponse.getResponseStatus (this : sqlInsertResponse) :
    Except String responseStatusType :=
  match this.response with
  | none => .error nilDereference
  | some r => .ok r.getResponseStatus

/-- `sqlInsertResponse.toNetworkReadyJSON`. -/
def sqlInsertResponse.toNetworkReadyJSON (this : sqlInsertResponse) : List JSONEvent :=
  let builder := JSONBuilder.networkReady
  let builder := builder.beginObject
  let builder := builder.ok
  let builder := builder.valueSeparator
  let builder := builder.action "insert"
  let builder := builder.valueSeparator
  let builder := builder.id this.id
  let builder := builder.endObject
  builder.getNetworkBytes

/-- `sqlSelectResponse` is a response for sql select statement. -/
structure sqlSelectResponse where
  response : Option response := none
  columns : List column
  records : List record
deriving DecidableEq, Repr

/-- The loop of `row`, `for colIndex, col := range columns`, from index `colIndex` on. -/
def rowLoop (rec : record) : Nat → List column → JSONBuilder → JSONBuilder
  | _, [], builder => builder
  | colIndex, col :: columns, builder =>
    let builder := if colIndex ≠ 0 then builder.valueSeparator else builder
    rowLoop rec (colIndex + 1) columns (builder.nameValue col.name (rec.getValue colIndex))

/-- The function `row`. -/
def row (builder : JSONBuilder) (columns : List column) (rec : record) : JSONBuilder :=
  let builder := builder.beginObject
  -- columns and values
  let builder := rowLoop rec 0 columns builder
  builder.endObject

/-- The loop of `data`, `for recIndex, rec := range this.records`, from index `recIndex` on. -/
def dataLoop (columns : List column) : Nat → List record → JSONBuilder → JSONBuilder
  | _, [], builder => builder
  | recIndex, rec :: records, builder =>
    -- another row
    let builder := if recIndex ≠ 0 then builder.valueSeparator else builder
    dataLoop columns (recIndex + 1) records (row builder columns rec)

/-- `sqlSelectResponse.data`. -/
def sqlSelectResponse.data (this : sqlSelectResponse) (builder : JSONBuilder) : JSONBuilder :=
  let builder := builder.nameIntValue "rows" this.records.length
  let builder := builder.valueSeparator
  let builder := builder.string "data"
  let builder := builder.nameSeparator
  let builder := builder.beginArray
  let builder := dataLoop this.columns 0 this.records builder
  builder.endArray

/-- `sqlSelectResponse.toNetworkReadyJSON`. -/
def sqlSelectResponse.toNetworkReadyJSON (this : sqlSelectResponse) : List JSONEvent :=
  let builder := JSONBuilder.networkReady
  let builder := builder.beginObject
  let builder := builder.ok
  let builder := builder.valueSeparator
  let builder := builder.action "select"
  let builder := builder.valueSeparator
  let builder := this.data builder
  let builder := builder.endObject
  builder.getNetworkBytes

/-- `sqlActionDataResponse`; the embedded `sqlSelectResponse` is the field `select`. -/
structure sqlActionDataResponse where
  select : sqlSelectResponse
  pubsubid : Nat
deriving DecidableEq, Repr

/-- `sqlActionDataResponse.toNetworkReadyJSONHelper`. -/
def sqlActionDataResponse.toNetworkReadyJSONHelper (this : sqlActionDataResponse)
    (act : String) : List JSONEvent :=
  let builder := JSONBuilder.networkReady
  let builder := builder.beginObject
  let builder := builder.ok
  let builder := builder.valueSeparator
  let builder := builder.action act
  let builder := builder.valueSeparator
  let builder := builder.nameValue "pubsubid" (FormatUint this.pubsubid 10)
  let builder := builder.valueSeparator
  let builder := this.select.data builder
  let builder := builder.endObject
  builder.getNetworkBytes

/-- `sqlActionDeleteResponse`. -/
structure sqlActionDeleteResponse where
  response : Option response := none
  id : String
  pubsubid : Nat
deriving DecidableEq, Repr

/-- `sqlActionDeleteResponse.toNetworkReadyJSON`. -/
def sqlActionDeleteResponse.toNetworkReadyJSON (this : sqlActionDeleteResponse) :
    List JSONEvent :=
  let builder := JSONBuilder.networkReady
  let builder := builder.beginObject
  let builder := builder.ok
  let builder := builder.valueSeparator
  let builder := builder.action "delete"
  let builder := builder.valueSeparator
  let builder := builder.nameValue "pubsubid" (FormatUint this.pubsubid 10)
  let builder := builder.valueSeparator
  let builder := builder.nameValue "id" this.id
  let builder := builder.endObject
  builder.getNetworkBytes

/-- `sqlActionRemoveResponse`. -/
structure sqlActionRemoveResponse where
  response : Option response := none
  id : String
  pubsubid : Nat
deriving DecidableEq, Repr

/-- `sqlActionRemoveResponse.toNetworkReadyJSON`. -/
def sqlActionRemoveResponse.toNetworkReadyJSON (this : sqlActionRemoveResponse) :
    List JSONEvent :=
  let builder := JSONBuilder.networkReady
  let builder := builder.beginObject
  let builder := builder.ok
  let builder := builder.valueSeparator
  let builder := builder.action "remove"
  let builder := builder.valueSeparator
  let builder := builder.nameValue "pubsubid" (FormatUint this.pubsubid 10)
  let builder := builder.valueSeparator
  let builder := builder.nameValue "id" this.id
  let builder := builder.endObject
  builder.getNetworkBytes

/-- `sqlActionUpdateResponse`; the field `rec` of the source is `rec_` here, `rec` being
taken by the recursor of the structure. -/
structure sqlActionUpdateResponse where
  response : Option response := none
  pubsubid : Nat
  cols : List column
  rec_ : record
deriving DecidableEq, Repr

/-- `sqlActionUpdateResponse.toNetworkReadyJSON`. -/
def sqlActionUpdateResponse.toNetworkReadyJSON (this : sqlActionUpdateResponse) :
    List JSONEvent :=
  let builder := JSONBuilder.networkReady
  let builder := builder.beginObject
  let builder := builder.ok
  let builder := builder.valueSeparator
  let builder := builder.action "update"
  let builder := builder.valueSeparator
  let builder := builder.nameValue "pubsubid" (FormatUint this.pubsubid 10)
  let builder := builder.valueSeparator
  let builder := builder.string "data"
  let builder := builder.nameSeparator
  let builder := builder.beginArray
  let builder := row builder this.cols this.rec_
  let builder := builder.endArray
  let builder := builder.endObject
  builder.getNetworkBytes

/-- The loop of `newSqlActionUpdateResponse`, `for idx, col := range cols`, from index `idx`
on: copy updated data. -/
def copyLoop (rec : record) : Nat → List column → record → record
  | _, [], dest => dest
  | idx, col :: cols, dest =>
    copyLoop rec (idx + 1) cols (dest.setValue idx (rec.getValue col.ordinal))

/-- `newSqlActionUpdateResponse`. -/
def newSqlActionUpdateResponse (pubsubid : Nat) (cols : List column) (rec : record) :
    sqlActionUpdateResponse :=
  let l := cols.length
  { pubsubid := pubsubid,
    cols := cols,
    rec_ := copyLoop rec 0 cols { values := List.replicate l "" } }

/-! ### The shape of a JSON object -/

/-- The value of a member: a string, an integer, or an array of row objects, each given
by its members. -/
inductive JSONValue where
  | str (s : String)
  | int (i : Int)
  | rows (rs : List (List (String × String)))
deriving DecidableEq, Repr

/-- The items one after the other, with a value separator between consecutive items and
none before the first or after the last. -/
def separated : List (List JSONEvent) → List JSONEvent
  | [] => []
  | [x] => x
  | x :: y :: rest => x ++ [JSONEvent.valueSeparator] ++ separated (y :: rest)

/-- The row object with the given members, all of them strings. -/
def JSONRow (members : List (String × String)) : List JSONEvent :=
  [JSONEvent.beginObject] ++ separated (members.map (fun m => [JSONEvent.nameValue m.1 m.2])) ++
    [JSONEvent.endObject]

/-- One member of an object. -/
def JSONMember : String × JSONValue → List JSONEvent
  | (name, .str s) => [JSONEvent.nameValue name s]
  | (name, .int i) => [JSONEvent.nameIntValue name i]
  | (name, .rows rs) =>
    [JSONEvent.string name, JSONEvent.nameSeparator, JSONEvent.beginArray] ++
      separated (rs.map JSONRow) ++ [JSONEvent.endArray]

/-- The object with exactly the given members, in the given order. -/
def JSONObject (members : List (String × JSONValue)) : List JSONEvent :=
  [JSONEvent.beginObject] ++ separated (members.map JSONMember) ++ [JSONEvent.endObject]

/-- The names of the members of the outermost object of a payload. -/
def memberNames : Nat → List JSONEvent → List String
  | _, [] => []
  | depth, .beginObject :: es => memberNames (depth + 1) es
  | depth, .beginArray :: es => memberNames (depth + 1) es
  | depth, .endObject :: es => memberNames (depth - 1) es
  | depth, .endArray :: es => memberNames (depth - 1) es
  | depth, .nameValue name _ :: es =>
    if depth = 1 then name :: memberNames depth es else memberNames depth es
  | depth, .nameIntValue name _ :: es =>
    if depth = 1 then name :: memberNames depth es else memberNames depth es
  | depth, .string name :: .nameSeparator :: es =>
    if depth = 1 then name :: memberNames depth es else memberNames depth es
  | depth, _ :: es => memberNames depth es

/-- The items one after the other, each preceded by a value separator. -/
def preceded : List (List JSONEvent) → List JSONEvent
  | [] => []
  | x :: rest => JSONEvent.valueSeparator :: x ++ preceded rest

/-- The members of the row object of `rec` for `columns`, counted from position `i` on: the
member for the column at position `j` has the name of that column and the value of `rec`
at `j`. -/
def rowMembers (rec : record) : Nat → List column → List (String × String)
  | _, [] => []
  | i, col :: columns => (col.name, rec.getValue i) :: rowMembers rec (i + 1) columns

/-- A select response with two columns and one record. -/
def selectExample : sqlSelectResponse :=
  { columns := [{ name := "id", ordinal := 0 }, { name := "ticker", ordinal := 1 }],
    records := [{ values := ["0", "IBM"] }] }

/-- `sqlActionAddResponse`; the embedded `sqlActionDataResponse` is the field `data`. -/
structure sqlActionAddResponse where
  data : sqlActionDataResponse
deriving DecidableEq, Repr

/-- `sqlActionAddResponse.toNetworkReadyJSON`. -/
def sqlActionAddResponse.toNetworkReadyJSON (this : sqlActionAddResponse) : List JSONEvent :=
  this.data.toNetworkReadyJSONHelper "add"

/-- `sqlActionInsertResponse`; the embedded `sqlActionDataResponse` is the field `data`. -/
structure sqlActionInsertResponse where
  data : sqlActionDataResponse
deriving DecidableEq, Repr

/-- `sqlActionInsertResponse.toNetworkReadyJSON`. -/
def sqlActionInsertResponse.toNetworkReadyJSON (this : sqlActionInsertResponse) :
    List JSONEvent :=
  this.data.toNetworkReadyJSONHelper "insert"

/-! ## Tokens (`src/parser/parser_test.go`) -/

/-- Modelled from the spec: the kinds of tokens (the declaration is not among the sources;
the names follow `tokenTypeEOF`, `tokenTypeSqlValue`, `tokenTypeSqlSubscribe` and
`tokenTypeSqlUnsubscribe`, which the sources use). Whitespace is skipped by the lexer and
has no token. -/
inductive tokenType where
  | tokenTypeError
  | tokenTypeEOF
  | tokenTypeSqlIdentifier
  | tokenTypeSqlValue
  | tokenTypeSqlLeftParenthesis
  | tokenTypeSqlRightParenthesis
  | tokenTypeSqlComma
  | tokenTypeSqlStar
  | tokenTypeSqlEqual
  | tokenTypeSqlInsert
  | tokenTypeSqlInto
  | tokenTypeSqlValues
  | tokenTypeSqlSelect
  | tokenTypeSqlFrom
  | tokenTypeSqlWhere
  | tokenTypeSqlUpdate
  | tokenTypeSqlSet
  | tokenTypeSqlDelete
  | tokenTypeSqlSubscribe
  | tokenTypeSqlUnsubscribe
  | tokenTypeSqlKey
  | tokenTypeSqlTag
  | tokenTypeSqlAnd
deriving DecidableEq, Repr

/-- The struct `token`, with the two fields the sources use. -/
structure token where
  typ : tokenType
  val : String
deriving DecidableEq, Repr

/-- `tokensProducerConsumer`. -/
structure tokensProducerConsumer where
  idx : Nat
  tokens : List token
deriving DecidableEq, Repr

/-- `newTokens`. -/
def newTokens : tokensProducerConsumer := { idx := 0, tokens := [] }

/-- `reuseTokens`. -/
def reuseTokens (pc : tokensProducerConsumer) : tokensProducerConsumer := { pc with idx := 0 }

/-- `tokensProducerConsumer.Consume`. -/
def tokensProducerConsumer.Consume (c : tokensProducerConsumer) (t : token) :
    tokensProducerConsumer :=
  { c with tokens := c.tokens ++ [t] }

/-- `tokensProducerConsumer.Produce`: the token returned and the producer after the call. -/
def tokensProducerConsumer.Produce (p : tokensProducerConsumer) :
    token × tokensProducerConsumer :=
  if h : p.idx ≥ p.tokens.length then
    ({ typ := .tokenTypeEOF, val := "" }, p)
  else
    (p.tokens.get ⟨p.idx, by omega⟩, { p with idx := p.idx + 1 })

/-- The producer after the tokens of `ts` have been passed to `Consume` in that order. -/
def consumeAll (ts : List token) (pc : tokensProducerConsumer) : tokensProducerConsumer :=
  ts.foldl tokensProducerConsumer.Consume pc

/-- Successive calls of `Produce`: the tokens returned by `k` calls and the producer after
them. -/
def produceMany : Nat → tokensProducerConsumer → List token × tokensProducerConsumer
  | 0, p => ([], p)
  | k + 1, p => (p.Produce.1 :: (produceMany k p.Produce.2).1, (produceMany k p.Produce.2).2)

/-! ## Lexer -/

namespace Lexer

def space : Char := Char.ofNat 32
def quote : Char := Char.ofNat 39
def leftParenthesis : Char := Char.ofNat 40
def rightParenthesis : Char := Char.ofNat 41
def star : Char := Char.ofNat 42
def comma : Char := Char.ofNat 44
def dot : Char := Char.ofNat 46
def equal : Char := Char.ofNat 61
def underscore : Char := Char.ofNat 95

/-- Space, tab, line feed, carriage return. -/
def isWhitespace (c : Char) : Bool :=
  c = space || c = Char.ofNat 9 || c = Char.ofNat 10 || c = Char.ofNat 13

/-- A digit: `[0-9]`. -/
def isDigit (c : Char) : Bool := decide (48 ≤ c.toNat ∧ c.toNat ≤ 57)

/-- A letter: `[A-Za-z]`. -/
def isLetter (c : Char) : Bool :=
  decide ((65 ≤ c.toNat ∧ c.toNat ≤ 90) ∨ (97 ≤ c.toNat ∧ c.toNat ≤ 122))

/-- The first character of an identifier: `[A-Za-z_]`. -/
def isIdentStart (c : Char) : Bool := isLetter c || c = underscore

/-- A character of an identifier: `[A-Za-z0-9_]`. -/
def isIdentChar (c : Char) : Bool := isLetter c || isDigit c || c = underscore

/-- Modelled from the spec: the keywords, compared in lower case. -/
def keyword (w : String) : Option tokenType :=
  if w = "insert" then some .tokenTypeSqlInsert
  else if w = "into" then some .tokenTypeSqlInto
  else if w = "values" then some .tokenTypeSqlValues
  else if w = "select" then some .tokenTypeSqlSelect
  else if w = "from" then some .tokenTypeSqlFrom
  else if w = "where" then some .tokenTypeSqlWhere
  else if w = "update" then some .tokenTypeSqlUpdate
  else if w = "set" then some .tokenTypeSqlSet
  else if w = "delete" then some .tokenTypeSqlDelete
  else if w = "subscribe" then some .tokenTypeSqlSubscribe
  else if w = "unsubscribe" then some .tokenTypeSqlUnsubscribe
  else if w = "key" then some .tokenTypeSqlKey
  else if w = "tag" then some .tokenTypeSqlTag
  else if w = "and" then some .tokenTypeSqlAnd
  else none

/-- Modelled from the spec: the token of a word `[A-Za-z_][A-Za-z0-9_]*`; the word is
lowercased for the comparison with the keywords and keeps its text. -/
def wordToken (w : List Char) : token :=
  match keyword (String.mk (w.map Char.toLower)) with
  | some k => { typ := k, val := String.mk w }
  | none => { typ := .tokenTypeSqlIdentifier, val := String.mk w }

/-- Modelled from the spec: the punctuation tokens, single characters. -/
def punctuation (c : Char) : Option tokenType :=
  if c = leftParenthesis then some .tokenTypeSqlLeftParenthesis
  else if c = rightParenthesis then some .tokenTypeSqlRightParenthesis
  else if c = comma then some .tokenTypeSqlComma
  else if c = star then some .tokenTypeSqlStar
  else if c = equal then some .tokenTypeSqlEqual
  else none

/-- What the lexer is reading: nothing, a word, the digits of a number, a number whose
decimal point has just been read, the digits after the decimal point, or a quoted string;
the characters read so far are kept. -/
inductive State where
  | start
  | word (acc : List Char)
  | whole (acc : List Char)
  | point (acc : List Char)
  | fraction (acc : List Char)
  | quoted (acc : List Char)
deriving DecidableEq, Repr

/-- Modelled from the spec: a character read while no token is open. Whitespace is
skipped, a letter or underscore opens a word, a digit a number, a quote a string,
punctuation is a token of its own; any other character is an error token. -/
def startChar (c : Char) : List token × State :=
  if isIdentStart c then ([], .word [c])
  else if isDigit c then ([], .whole [c])
  else if c = quote then ([], .quoted [])
  else if isWhitespace c then ([], .start)
  else
    match punctuation c with
    | some k => ([{ typ := k, val := String.mk [c] }], .start)
    | none => ([{ typ := .tokenTypeError, val := String.mk [c] }], .start)

/-- Modelled from the spec: one character. A word ends before the first character that is
not `[A-Za-z0-9_]`, a number `[0-9]+(\.[0-9]+)?` before the first character that does not
continue it and is emitted as an sql value, a quoted string ends at the next quote and is
emitted as an sql value without its quotes. -/
def step (st : State) (c : Char) : List token × State :=
  match st with
  | .start => startChar c
  | .word acc =>
    if isIdentChar c then ([], .word (acc ++ [c]))
    else (wordToken acc :: (startChar c).1, (startChar c).2)
  | .whole acc =>
    if isDigit c then ([], .whole (acc ++ [c]))
    else if c = dot then ([], .point acc)
    else ({ typ := .tokenTypeSqlValue, val := String.mk acc } :: (startChar c).1, (startChar c).2)
  | .point acc =>
    if isDigit c then ([], .fraction (acc ++ [dot, c]))
    else ({ typ := .tokenTypeError, val := String.mk (acc ++ [dot]) } :: (startChar c).1,
          (startChar c).2)
  | .fraction acc =>
    if isDigit c then ([], .fraction (acc ++ [c]))
    else ({ typ := .tokenTypeSqlValue, val := String.mk acc } :: (startChar c).1, (startChar c).2)
  | .quoted acc =>
    if c = quote then ([{ typ := .tokenTypeSqlValue, val := String.mk acc }], .start)
    else ([], .quoted (acc ++ [c]))

/-- Modelled from the spec: the end of the input; an unterminated quote is an error token. -/
def flush : State → List token
  | .start => []
  | .word acc => [wordToken acc]
  | .whole acc => [{ typ := .tokenTypeSqlValue, val := String.mk acc }]
  | .point acc => [{ typ := .tokenTypeError, val := String.mk (acc ++ [dot]) }]
  | .fraction acc => [{ typ := .tokenTypeSqlValue, val := String.mk acc }]
  | .quoted acc => [{ typ := .tokenTypeError, val := String.mk acc }]

/-- The tokens of the characters, followed by the token of the end of the input. -/
def run : State → List Char → List token
  | st, [] => flush st ++ [{ typ := .tokenTypeEOF, val := "" }]
  | st, c :: cs => (step st c).1 ++ run (step st c).2 cs

end Lexer

/-- Modelled from the spec: `lex(input, tokens)` passes the tokens of the input to the
consumer (lexer.go is not among the sources). -/
def lex (input : String) (tokens : tokensProducerConsumer) : tokensProducerConsumer :=
  consumeAll (Lexer.run .start input.data) tokens

/-! ## Parser -/

/-- A column and its value, as in `colVals` and in a filter. -/
structure columnValue where
  col : String
  val : String
deriving DecidableEq, Repr

/-- Modelled from the spec: the results of `parse`, with the names the tests use; a filter
is at most one equality. -/
inductive action where
  | errorAction (err : String)
  | sqlInsertAction (table : String) (colVals : List columnValue)
  | sqlSelectAction (table : String) (filter : Option columnValue)
  | sqlUpdateAction (table : String) (colVals : List columnValue) (filter : Option columnValue)
  | sqlDeleteAction (table : String) (filter : Option columnValue)
  | sqlSubscribeAction (table : String) (filter : Option columnValue)
  | sqlUnsubscribeAction (table : String) (filter : Option columnValue)
      (pubsubid : Option String)
  | sqlKeyAction (table : String) (column : String)
  | sqlTagAction (table : String) (column : String)
deriving DecidableEq, Repr

/-- The action is an `errorAction`, as `expectedError` of the tests checks. -/
def action.isError : action → Bool
  | .errorAction _ => true
  | _ => false

/-- The action is a `sqlInsertAction`. -/
def action.isInsert : action → Bool
  | .sqlInsertAction _ _ => true
  | _ => false

namespace Parser

/-- The message of a parse error: the construct expected and the token seen. -/
def expected (what : String) (seen : Option token) : String :=
  match seen with
  | some t => "expected " ++ what ++ ", but got: " ++ t.val
  | none => "expected " ++ what ++ ", but got: end of statement"

/-- Modelled from the spec: an sql value is a bare identifier, a number or a quoted
string. -/
def isSqlValue (t : token) : Bool :=
  t.typ = .tokenTypeSqlValue || t.typ = .tokenTypeSqlIdentifier

/-- Modelled from the spec: `parseEOF`, the statement ends here. -/
def parseEOF (ts : List token) (a : action) : action :=
  match ts with
  | [] => a
  | t :: _ => if t.typ = .tokenTypeEOF then a else .errorAction (expected "end of statement" (some t))

/-- Modelled from the spec: a list `item (',' item)*` up to and including the closing
parenthesis; `accept` says which tokens are items and `what` names them in the message of
an error. A missing item, as in an empty list or after a trailing comma, is an error. -/
def parseList (accept : token → Bool) (what : String) :
    List token → List String → Except String (List String × List token)
  | [], _ => .error (expected what none)
  | [t], _ =>
    if accept t then .error (expected ", or )" none)
    else .error (expected what (some t))
  | t :: sep :: rest, acc =>
    if accept t then
      if sep.typ = .tokenTypeSqlComma then parseList accept what rest (acc ++ [t.val])
      else if sep.typ = .tokenTypeSqlRightParenthesis then .ok (acc ++ [t.val], rest)
      else .error (expected ", or )" (some sep))
    else .error (expected what (some t))

/-- Modelled from the spec: `cols := ident (',' ident)*`. -/
def parseColumns (ts : List token) : Except String (List String × List token) :=
  parseList (fun t => t.typ = .tokenTypeSqlIdentifier) "column name" ts []

/-- Modelled from the spec: `vals := sqlvalue (',' sqlvalue)*`. -/
def parseValues (ts : List token) : Except String (List String × List token) :=
  parseList isSqlValue "value" ts []

/-- Modelled from the spec: the rest of `insert := 'insert' 'into' ident '(' cols ')'
'values' '(' vals ')'` after the keyword `insert`; `cols` and `vals` must have the same
length. -/
def parseSqlInsert (ts : List token) : action :=
  match ts with
  | into :: table :: open1 :: rest =>
    if into.typ ≠ .tokenTypeSqlInto then .errorAction (expected "into" (some into))
    else if table.typ ≠ .tokenTypeSqlIdentifier then
      .errorAction (expected "table name" (some table))
    else if open1.typ ≠ .tokenTypeSqlLeftParenthesis then
      .errorAction (expected "(" (some open1))
    else
      match parseColumns rest with
      | .error err => .errorAction err
      | .ok (cols, rest) =>
        match rest with
        | values :: open2 :: rest =>
          if values.typ ≠ .tokenTypeSqlValues then .errorAction (expected "values" (some values))
          else if open2.typ ≠ .tokenTypeSqlLeftParenthesis then
            .errorAction (expected "(" (some open2))
          else
            match parseValues rest with
            | .error err => .errorAction err
            | .ok (vals, rest) =>
              if cols.length ≠ vals.length then
                .errorAction "number of values does not match number of columns"
              else
                parseEOF rest
                  (.sqlInsertAction table.val
                    (List.zipWith (fun c v => { col := c, val := v }) cols vals))
        | _ => .errorAction (expected "values (" none)
  | _ => .errorAction (expected "into table (" none)

/-- Modelled from the spec: `where := 'where' ident '=' sqlvalue`, optional, followed by
the end of the statement. -/
def parseWhere (ts : List token) : Except String (Option columnValue) :=
  match ts with
  | [] => .ok none
  | t :: rest =>
    if t.typ = .tokenTypeEOF then .ok none
    else if t.typ = .tokenTypeSqlWhere then
      match rest with
      | c :: e :: v :: rest =>
        if c.typ ≠ .tokenTypeSqlIdentifier then .error (expected "column name" (some c))
        else if e.typ ≠ .tokenTypeSqlEqual then .error (expected "=" (some e))
        else if !isSqlValue v then .error (expected "value" (some v))
        else
          match parseEOF rest (.sqlKeyAction "" "") with
          | .errorAction err => .error err
          | _ => .ok (some { col := c.val, val := v.val })
      | _ => .error (expected "column = value" none)
    else .error (expected "where" (some t))

/-- Modelled from the spec: `from ident where?`, shared by select, delete and subscribe. -/
def parseFromTable (ts : List token) (build : String → Option columnValue → action) : action :=
  match ts with
  | f :: table :: rest =>
    if f.typ ≠ .tokenTypeSqlFrom then .errorAction (expected "from" (some f))
    else if table.typ ≠ .tokenTypeSqlIdentifier then
      .errorAction (expected "table name" (some table))
    else
      match parseWhere rest with
      | .error err => .errorAction err
      | .ok filter => build table.val filter
  | _ => .errorAction (expected "from table" none)

/-- Modelled from the spec: `'*' 'from' ident where?`, shared by select and subscribe. -/
def parseStarFromTable (ts : List token) (build : String → Option columnValue → action) :
    action :=
  match ts with
  | t :: rest =>
    if t.typ ≠ .tokenTypeSqlStar then .errorAction (expected "*" (some t))
    else parseFromTable rest build
  | [] => .errorAction (expected "*" none)

/-- Modelled from the spec: `assign (',' assign)* where?` with `assign := ident '='
sqlvalue`. -/
def parseAssignments (table : String) : List token → List columnValue → action
  | c :: e :: v :: sep :: rest, acc =>
    if c.typ ≠ .tokenTypeSqlIdentifier then .errorAction (expected "column name" (some c))
    else if e.typ ≠ .tokenTypeSqlEqual then .errorAction (expected "=" (some e))
    else if !isSqlValue v then .errorAction (expected "value" (some v))
    else if sep.typ = .tokenTypeSqlComma then
      parseAssignments table rest (acc ++ [{ col := c.val, val := v.val }])
    else
      match parseWhere (sep :: rest) with
      | .error err => .errorAction err
      | .ok filter => .sqlUpdateAction table (acc ++ [{ col := c.val, val := v.val }]) filter
  | _, _ => .errorAction (expected "column = value" none)

/-- Modelled from the spec: `update := 'update' ident 'set' assign (',' assign)* where?`
after the keyword `update`. -/
def parseSqlUpdate (ts : List token) : action :=
  match ts with
  | table :: set :: rest =>
    if table.typ ≠ .tokenTypeSqlIdentifier then
      .errorAction (expected "table name" (some table))
    else if set.typ ≠ .tokenTypeSqlSet then .errorAction (expected "set" (some set))
    else parseAssignments table.val rest []
  | _ => .errorAction (expected "table set" none)

/-- Modelled from the spec: `unsubscribe := 'unsubscribe' ('from' ident where? | 'from'
pubsubid)` after the keyword `unsubscribe`. -/
def parseSqlUnsubscribe (ts : List token) : action :=
  match ts with
  | f :: target :: rest =>
    if f.typ ≠ .tokenTypeSqlFrom then .errorAction (expected "from" (some f))
    else if target.typ = .tokenTypeSqlValue then
      parseEOF rest (.sqlUnsubscribeAction "" none (some target.val))
    else parseFromTable ts (fun table filter => .sqlUnsubscribeAction table filter none)
  | _ => .errorAction (expected "from" none)

/-- Modelled from the spec: `key := 'key' ident ident` and `tag := 'tag' ident ident` after
the keyword. -/
def parseTableColumn (ts : List token) (build : String → String → action) : action :=
  match ts with
  | table :: column :: rest =>
    if table.typ ≠ .tokenTypeSqlIdentifier then
      .errorAction (expected "table name" (some table))
    else if column.typ ≠ .tokenTypeSqlIdentifier then
      .errorAction (expected "column name" (some column))
    else parseEOF rest (build table.val column.val)
  | _ => .errorAction (expected "table column" none)

/-- Modelled from the spec: a statement is discriminated by its leading keyword. -/
def parseStatement (ts : List token) : action :=
  match ts with
  | [] => .errorAction (expected "statement" none)
  | t :: rest =>
    match t.typ with
    | .tokenTypeSqlInsert => parseSqlInsert rest
    | .tokenTypeSqlSelect => parseStarFromTable rest .sqlSelectAction
    | .tokenTypeSqlUpdate => parseSqlUpdate rest
    | .tokenTypeSqlDelete => parseFromTable rest .sqlDeleteAction
    | .tokenTypeSqlSubscribe => parseStarFromTable rest .sqlSubscribeAction
    | .tokenTypeSqlUnsubscribe => parseSqlUnsubscribe rest
    | .tokenTypeSqlKey => parseTableColumn rest .sqlKeyAction
    | .tokenTypeSqlTag => parseTableColumn rest .sqlTagAction
    | _ => .errorAction (expected "statement" (some t))

end Parser

/-- Modelled from the spec: `parse(tokens)` reads the statement from the tokens the
producer has still to deliver, which are followed by the end of the input for ever
(parser.go is not among the sources). -/
def parse (tokens : tokensProducerConsumer) : action :=
  Parser.parseStatement (tokens.tokens.drop tokens.idx)

/-! ### Insert statements -/

/-- An sql value as it is written in a statement: a bare identifier, a number with an
optional fraction, or a string in single quotes. -/
inductive sqlValueText where
  | bare (w : String)
  | number (whole : String) (fraction : Option String)
  | quoted (s : String)
deriving DecidableEq, Repr

/-- The characters are a word `[A-Za-z_][A-Za-z0-9_]*`. -/
def isWord : List Char → Bool
  | [] => false
  | c :: cs => Lexer.isIdentStart c && cs.all Lexer.isIdentChar

/-- The word is an identifier `[A-Za-z_][A-Za-z0-9_]*` and not a keyword. -/
def isIdentifier (w : String) : Bool :=
  isWord w.data && decide ((Lexer.wordToken w.data).typ = .tokenTypeSqlIdentifier)

/-- The string is a non-empty sequence of digits. -/
def isDigits (w : String) : Bool := w.data ≠ [] && w.data.all Lexer.isDigit

/-- The value is written correctly: a bare identifier is an identifier, the parts of a
number are digits, and a quoted string contains no quote. -/
def sqlValueText.wellFormed : sqlValueText → Bool
  | .bare w => isIdentifier w
  | .number whole none => isDigits whole
  | .number whole (some fraction) => isDigits whole && isDigits fraction
  | .quoted s => s.data.all (fun c => c ≠ Lexer.quote)

/-- The text of the value in a statement. -/
def sqlValueText.text : sqlValueText → String
  | .bare w => w
  | .number whole none => whole
  | .number whole (some fraction) => whole ++ "." ++ fraction
  | .quoted s => "\x27" ++ s ++ "\x27"

/-- The value itself: the text without the quotes of a quoted string. -/
def sqlValueText.value : sqlValueText → String
  | .bare w => w
  | .number whole none => whole
  | .number whole (some fraction) => whole ++ "." ++ fraction
  | .quoted s => s

/-- The items separated by a comma and a space. -/
def commaList : List String → String
  | [] => ""
  | [x] => x
  | x :: y :: rest => x ++ ", " ++ commaList (y :: rest)

/-- The statement `insert into t (c1, ..., cn) values (v1, ..., vm)`; `colsComma` and
`valsComma` put a trailing comma after the last column and after the last value. -/
def insertStatement (t : String) (cols : List String) (vals : List sqlValueText)
    (colsComma valsComma : Bool) : String :=
  "insert into " ++ t ++ " (" ++ commaList cols ++ (if colsComma then "," else "") ++
    ") values (" ++ commaList (vals.map sqlValueText.text) ++ (if valsComma then "," else "") ++
    ")"

/-- The token of an identifier. -/
def identifierToken (w : String) : token := { typ := .tokenTypeSqlIdentifier, val := w }

/-- The token of a value: a bare identifier is an identifier token, a number and a quoted
string are sql values. -/
def sqlValueText.token : sqlValueText → token
  | .bare w => { typ := .tokenTypeSqlIdentifier, val := w }
  | .number whole none => { typ := .tokenTypeSqlValue, val := whole }
  | .number whole (some fraction) => { typ := .tokenTypeSqlValue, val := whole ++ "." ++ fraction }
  | .quoted s => { typ := .tokenTypeSqlValue, val := s }

/-- The tokens with a comma token between consecutive ones. -/
def commaTokens : List token → List token
  | [] => []
  | [x] => [x]
  | x :: y :: rest => x :: { typ := .tokenTypeSqlComma, val := "," } :: commaTokens (y :: rest)

/-- The token of a trailing comma, if there is one. -/
def trailingComma (b : Bool) : List token :=
  if b then [{ typ := .tokenTypeSqlComma, val := "," }] else []

/-- The tokens of `insertStatement`. -/
def insertTokens (t : String) (cols : List String) (vals : List sqlValueText)
    (colsComma valsComma : Bool) : List token :=
  [{ typ := .tokenTypeSqlInsert, val := "insert" }, { typ := .tokenTypeSqlInto, val := "into" },
    identifierToken t, { typ := .tokenTypeSqlLeftParenthesis, val := "(" }] ++
  (commaTokens (cols.map identifierToken) ++ (trailingComma colsComma ++
    ({ typ := .tokenTypeSqlRightParenthesis, val := ")" } ::
     { typ := .tokenTypeSqlValues, val := "values" } ::
     { typ := .tokenTypeSqlLeftParenthesis, val := "(" } ::
     (commaTokens (vals.map sqlValueText.token) ++ (trailingComma valsComma ++
       [{ typ := .tokenTypeSqlRightParenthesis, val := ")" },
        { typ := .tokenTypeEOF, val := "" }])))))

/-- The characters of the items separated by a comma and a space. -/
def commaChars : List (List Char) → List Char
  | [] => []
  | [x] => x
  | x :: y :: rest => x ++ Lexer.comma :: Lexer.space :: commaChars (y :: rest)

/-- The characters of a trailing comma, if there is one. -/
def trailingChars (b : Bool) : List Char := if b then [Lexer.comma] else []

/-- The text lexes as the token whenever a comma or a closing parenthesis follows it. -/
def LexesAs (text : List Char) (tk : token) : Prop :=
  ∀ (d : Char) (rest : List Char), d = Lexer.comma ∨ d = Lexer.rightParenthesis →
    Lexer.run .start (text ++ d :: rest) =
      tk :: ((Lexer.startChar d).1 ++ Lexer.run (Lexer.startChar d).2 rest)

/-! ### Dispatcher: theorems -/

/-- The map `d.tables` is never written by `onSqlRequest`. -/
theorem onSqlRequest_tables_unchanged (s s1 : ServiceState) (item : requestItem) (a : Nat)
    (h : onSqlRequest s item = .ok (s1, a)) : s1.d = s.d := by
  unfold onSqlRequest at h
  split at h
  · split at h
    · cases h; rfl
    · cases h; rfl
  · cases h

/-- C1 (evaluation of the code at the failing input): on the service returned by
`newDataService 2048`, a request naming `stocks` is forwarded to a fresh table at address 0
and `d.tables` stays empty, so `stocks` is not registered; a second request naming `stocks`
is then forwarded to another fresh table at address 1, and the map is still empty. -/
theorem onSqlRequest_does_not_register :
    onSqlRequest (newDataService 2048) { req := .sqlRequest "stocks" 1, sender := 0 }
      = .ok ({ d := { tables := [], bufferSize := 2048 },
               heap := [ { name := "stocks",
                           requests := [{ req := .sqlRequest "stocks" 1, sender := 0 }],
                           capacity := 2048, running := true } ] }, 0) ∧
    dataService.lookup { tables := [], bufferSize := 2048 } "stocks" = none ∧
    onSqlRequest
        { d := { tables := [], bufferSize := 2048 },
          heap := [ { name := "stocks",
                      requests := [{ req := .sqlRequest "stocks" 1, sender := 0 }],
                      capacity := 2048, running := true } ] }
        { req := .sqlRequest "stocks" 2, sender := 0 }
      = .ok ({ d := { tables := [], bufferSize := 2048 },
               heap := [ { name := "stocks",
                           requests := [{ req := .sqlRequest "stocks" 1, sender := 0 }],
                           capacity := 2048, running := true },
                         { name := "stocks",
                           requests := [{ req := .sqlRequest "stocks" 2, sender := 0 }],
                           capacity := 2048, running := true } ] }, 1) := by
  refine ⟨rfl, by decide, rfl⟩

/-! ### Client: basic facts -/

namespace client

@[simp] theorem reset_err (c : client) : c.reset.err = "" := rfl
@[simp] theorem reset_rw (c : client) : c.reset.rw = c.rw := rfl
@[simp] theorem reset_requestId (c : client) : c.reset.requestId = c.requestId := rfl
@[simp] theorem reset_rawjson (c : client) : c.reset.rawjson = "" := rfl
@[simp] theorem reset_record (c : client) : c.reset.record = -1 := rfl
@[simp] theorem reset_response (c : client) : c.reset.response = c.response.reset := rfl
@[simp] theorem setErrorString_err (c : client) (e : String) : (c.setErrorString e).err = e := rfl
@[simp] theorem setErrorString_rw (c : client) (e : String) : (c.setErrorString e).rw = c.rw := rfl
@[simp] theorem setErrorString_requestId (c : client) (e : String) :
    (c.setErrorString e).requestId = c.requestId := rfl
@[simp] theorem setErrorString_rawjson (c : client) (e : String) :
    (c.setErrorString e).rawjson = "" := rfl
@[simp] theorem setErrorString_record (c : client) (e : String) :
    (c.setErrorString e).record = -1 := rfl
@[simp] theorem setErrorString_response (c : client) (e : String) :
    (c.setErrorString e).response = c.response.reset := rfl
@[simp] theorem setError_eq (c : client) (e : String) : c.setError e = c.setErrorString e := rfl

/-- A read on a valid connection whose next delivery is a frame. -/
theorem read_frame (c : client) (h : NetworkHeader) (b : String) (rest : List ReadOutcome)
    (hv : c.rw.valid = true) (hin : c.rw.incoming = .frame h b :: rest) :
    c.read = (some ({ h with RequestId := h.RequestId % 2 ^ 32 }, b),
              { c with rw := { c.rw with incoming := rest } }) := by
  simp [read, NetMessageReaderWriter.Valid, NetMessageReaderWriter.ReadMessage, hv, hin]

/-- A successful read consumes exactly one delivery and changes nothing else. -/
theorem read_some (c c1 : client) (f : NetworkHeader × String) (h : c.read = (some f, c1)) :
    ∃ rest, c1 = { c with rw := { c.rw with incoming := rest } } ∧
      c.rw.incoming.length = rest.length + 1 := by
  unfold read at h
  split at h
  · rcases hin : c.rw.incoming with _ | ⟨o, rest⟩
    · simp [NetMessageReaderWriter.ReadMessage, hin] at h
    · cases o with
      | frame hd bytes =>
        simp only [NetMessageReaderWriter.ReadMessage, hin, Prod.mk.injEq, Option.some.injEq] at h
        exact ⟨rest, h.2.symm, by simp⟩
      | failure e => simp [NetMessageReaderWriter.ReadMessage, hin] at h
  · simp at h

/-- Fuel above the number of incoming deliveries is not used up by the loop of `Execute`. -/
theorem executeLoop_fuel (u : Unmarshal) :
    ∀ (fuel1 fuel2 : Nat) (c : client), c.rw.incoming.length < fuel1 →
      c.rw.incoming.length < fuel2 → executeLoop u fuel1 c = executeLoop u fuel2 c := by
  intro fuel1
  induction fuel1 with
  | zero => intro fuel2 c h1; omega
  | succ n ih =>
    intro fuel2 c h1 h2
    cases fuel2 with
    | zero => omega
    | succ m =>
      unfold executeLoop
      rcases hr : c.read with ⟨_ | ⟨header, bytes⟩, c1⟩
      · rfl
      · obtain ⟨rest, hc1, hlen⟩ := read_some c c1 _ hr
        have hl : c1.rw.incoming.length = rest.length := by rw [hc1]
        simp only
        rw [ih m c1 (by omega) (by omega)]

/-- The state after `write`: the request id is incremented as a `uint32`; on a valid
connection the frame is handed to the connection and the first pending outcome decides,
otherwise the client is left with the error `Not connected`. -/
theorem write_eq (c : client) (message : String) :
    c.write message =
      if c.rw.valid then
        match c.rw.outcomes.head?.join with
        | none =>
          (true, { c with requestId := (c.requestId + 1) % 2 ^ 32,
                          rw := { c.rw with outcomes := c.rw.outcomes.tail,
                                            written := c.rw.written ++
                                              [((c.requestId + 1) % 2 ^ 32, message)] } })
        | some err =>
          (false, ({ c with requestId := (c.requestId + 1) % 2 ^ 32,
                            rw := { c.rw with outcomes := c.rw.outcomes.tail,
                                              written := c.rw.written ++
                                                [((c.requestId + 1) % 2 ^ 32, message)] } }
                    ).setErrorString err)
      else
        (false, ({ c with requestId := (c.requestId + 1) % 2 ^ 32 }).setErrorString
          "Not connected") := by
  unfold write
  by_cases hv : c.rw.valid = true
  · simp only [NetMessageReaderWriter.Valid, hv, if_true,
      NetMessageReaderWriter.WriteHeaderAndMessage]
    cases c.rw.outcomes.head?.join <;> rfl
  · simp [NetMessageReaderWriter.Valid, hv]

/-- C10: `Disconnect` increments the request id by one (as a `uint32`, so modulo `2 ^ 32`);
on a valid connection it hands exactly one frame to the connection, with the new request
id and the 5-byte payload `close`, and on an invalid one it writes nothing; afterwards,
whatever the outcome of that write, `Ok()` is true, `Error()`, `JSON()`, `Action()` and
`Id()` are empty and `RecordCount()` is 0. -/
theorem Disconnect_resets (c : client) :
    c.Disconnect.requestId = (c.requestId + 1) % 2 ^ 32 ∧
    c.Disconnect.rw.written =
      (if c.rw.valid then c.rw.written ++ [((c.requestId + 1) % 2 ^ 32, "close")]
       else c.rw.written) ∧
    "close".utf8ByteSize = 5 ∧
    c.Disconnect.Ok = true ∧ c.Disconnect.Error = "" ∧ c.Disconnect.JSON = "" ∧
    c.Disconnect.Action = "" ∧ c.Disconnect.Id = "" ∧ c.Disconnect.RecordCount = 0 := by
  have hw := write_eq c "close"
  refine ⟨?_, ?_, by decide, rfl, rfl, rfl, rfl, rfl, rfl⟩
  · show (c.write "close").2.requestId = _
    rw [hw]
    by_cases hv : c.rw.valid = true
    · simp only [hv, if_true]
      cases c.rw.outcomes.head?.join <;> rfl
    · simp [hv]
  · show (c.write "close").2.rw.written = _
    rw [hw]
    by_cases hv : c.rw.valid = true
    · simp only [hv, if_true]
      cases c.rw.outcomes.head?.join <;> rfl
    · simp [hv]

/-- The loop of `Execute` skips frames with request id 0 while the id waited for is not 0. -/
theorem executeLoop_skip (u : Unmarshal) (rest : List ReadOutcome) :
    ∀ (evs : List String) (c : client), c.rw.valid = true → c.requestId ≠ 0 →
      c.rw.incoming = evs.map (frameOf 0) ++ rest →
      executeLoop u (c.rw.incoming.length + 1) c =
        executeLoop u (rest.length + 1) { c with rw := { c.rw with incoming := rest } } := by
  intro evs
  induction evs with
  | nil =>
    intro c _ _ hin
    simp only [List.map_nil, List.nil_append] at hin
    rw [hin]
    congr 1
    cases c with
    | mk Client rw requestId err rawjson response record =>
      cases rw
      simp_all
  | cons e evs ih =>
    intro c hv hid hin
    simp only [List.map_cons, List.cons_append] at hin
    rw [executeLoop, read_frame c _ e _ hv hin]
    simp only [Nat.zero_mod]
    rw [if_neg (fun h => hid h.symm), if_pos trivial]
    have key := ih { c with rw := { c.rw with incoming := evs.map (frameOf 0) ++ rest } } hv hid rfl
    simp only at key
    rw [executeLoop_fuel u _ ((evs.map (frameOf 0) ++ rest).length + 1) _ (by simp [hin])
      (by simp)]
    exact key

/-- The outcome of `Execute` on a valid connection whose write succeeds: frames with
request id 0 are skipped (as long as the id sent is not 0) and the next frame decides. -/
theorem Execute_decided (u : Unmarshal) (c : client) (command : String) (evs : List String)
    (h : NetworkHeader) (b : String) (rest : List ReadOutcome)
    (hv : c.rw.valid = true) (hw : c.rw.outcomes.head?.join = none)
    (hin : c.rw.incoming = evs.map (frameOf 0) ++ .frame h b :: rest)
    (hid : (c.requestId + 1) % 2 ^ 32 ≠ 0 ∨ evs = [])
    (hh : h.RequestId % 2 ^ 32 ≠ 0 ∨ h.RequestId % 2 ^ 32 = (c.requestId + 1) % 2 ^ 32) :
    c.Execute u command =
      if h.RequestId % 2 ^ 32 = (c.requestId + 1) % 2 ^ 32 then
        (c.sent command rest).unmarshalJSON u b
      else if h.RequestId % 2 ^ 32 < (c.requestId + 1) % 2 ^ 32 then
        (false, (c.sent command rest).setErrorString "previous result was not fully read")
      else
        (false, (c.sent command rest).setErrorString "protocol error invalid requestId") := by
  have hskip : ∀ (c1 : client) (n : Nat), n = c1.rw.incoming.length + 1 →
      c1.rw.valid = true → c1.requestId = (c.requestId + 1) % 2 ^ 32 →
      c1.rw.incoming = evs.map (frameOf 0) ++ .frame h b :: rest →
      executeLoop u n c1 =
        executeLoop u ((ReadOutcome.frame h b :: rest).length + 1)
          { c1 with rw := { c1.rw with incoming := .frame h b :: rest } } := by
    intro c1 n hn hv1 hid1 hin1
    subst hn
    rcases hid with hid | hid
    · exact executeLoop_skip u _ evs c1 hv1 (by rw [hid1]; exact hid) hin1
    · subst hid
      simp only [List.map_nil, List.nil_append] at hin1
      rw [hin1]
      congr 1
      cases c1 with
      | mk Client rw requestId err rawjson response record =>
        cases rw
        simp_all
  have hwr : c.reset.write command = (true, c.sent command c.rw.incoming) := by
    rw [write_eq]
    simp only [reset_rw, hv, if_true, hw, reset_requestId]
    cases c with
    | mk Client rw requestId err rawjson response record =>
      cases rw
      simp_all [sent]
  have key := hskip (c.sent command c.rw.incoming) _ rfl hv rfl hin
  unfold Execute
  rw [hwr]
  simp only
  refine key.trans ?_
  rw [executeLoop, read_frame _ h b rest]
  · simp only [sent]
    by_cases h1 : h.RequestId % 2 ^ 32 = (c.requestId + 1) % 2 ^ 32
    · simp only [h1, if_true]
    · rcases hh with hh | hh
      · simp only [h1, if_false, hh]
      · exact absurd hh h1
  · exact hv
  · rfl

theorem unmarshalJSON_true_err (u : Unmarshal) (c : client) (b : String)
    (h : (c.unmarshalJSON u b).1 = true) : (c.unmarshalJSON u b).2.err = c.err := by
  unfold unmarshalJSON at h ⊢
  rcases hu : u b c.response with ⟨r, _ | e⟩
  · simp only [hu] at h ⊢
    split at h
    · simp at h
    · rename_i hs
      simp only [hs]
      rfl
  · simp only [hu] at h
    simp at h

theorem executeLoop_true_err (u : Unmarshal) :
    ∀ (fuel : Nat) (c : client), c.err = "" → (executeLoop u fuel c).1 = true →
      (executeLoop u fuel c).2.err = "" := by
  intro fuel
  induction fuel with
  | zero => intro c _ h; simp [executeLoop] at h
  | succ n ih =>
    intro c hc h
    unfold executeLoop at h ⊢
    rcases hr : c.read with ⟨_ | ⟨header, bytes⟩, c1⟩
    · simp [hr] at h
    · obtain ⟨rest, hc1, _⟩ := read_some c c1 _ hr
      have he : c1.err = "" := by rw [hc1]; exact hc
      simp only [hr] at h ⊢
      split
      · rename_i h1
        simp only [h1, if_true] at h
        rw [unmarshalJSON_true_err u c1 bytes h]
        exact he
      · rename_i h1
        simp only [h1, if_false] at h
        split
        · rename_i h2
          simp only [h2, if_true] at h
          exact ih c1 he h
        · rename_i h2
          simp only [h2, if_false] at h
          split at h <;> simp at h

theorem write_true_err (c : client) (message : String) (h : (c.write message).1 = true) :
    (c.write message).2.err = c.err := by
  rw [write_eq] at h ⊢
  by_cases hv : c.rw.valid = true
  · rw [if_pos hv] at h ⊢
    rcases ho : c.rw.outcomes.head?.join with _ | e
    · simp only [ho]
    · simp only [ho] at h
      simp at h
  · rw [if_neg hv] at h
    simp at h

/-- Whenever `Execute` returns true, `Ok()` is true right after the call. -/
theorem Execute_true_Ok (u : Unmarshal) (c : client) (command : String)
    (h : (c.Execute u command).1 = true) : (c.Execute u command).2.Ok = true := by
  unfold Execute at h ⊢
  rcases hw : c.reset.write command with ⟨_ | _, c1⟩
  · simp [hw] at h
  · simp only [hw] at h ⊢
    have he : c1.err = "" := by
      have := write_true_err c.reset command (by rw [hw])
      rw [hw] at this
      exact this
    simp [Ok, executeLoop_true_err u _ c1 he h]

/-- C2 (evaluation of the code at the failing input): a connected client executes a command
and the server answers, under the request id of the command, with the error response
whose message is empty. `Execute` returns false, and right after the call `Ok()` is true,
`Failed()` is false and `Error()` is empty. -/
theorem Execute_false_yet_Ok :
    ((connectedTo [frameOf 2 errEmptyPayload]).Execute jsonUnmarshal "key stocks ticker").1
      = false ∧
    ((connectedTo [frameOf 2 errEmptyPayload]).Execute jsonUnmarshal "key stocks ticker").2.Ok
      = true ∧
    ((connectedTo [frameOf 2 errEmptyPayload]).Execute jsonUnmarshal "key stocks ticker").2.Failed
      = false ∧
    ((connectedTo [frameOf 2 errEmptyPayload]).Execute jsonUnmarshal "key stocks ticker").2.Error
      = "" := by
  decide

/-- C4 (evaluation of the code at the failing input): the client has sent `2 ^ 32 - 1`
requests, so the next request id wraps around to 0. A pubsub event (request id 0) arrives
before the response to the command. `Execute` does not skip the event: it takes it as the
response (the action reported is `add`) and leaves the response unread. -/
theorem Execute_takes_event_as_response :
    ({ connectedTo [frameOf 0 addEventPayload, frameOf 0 emptySelectPayload] with
        requestId := 4294967295 }.Execute jsonUnmarshal "select * from stocks").1 = true ∧
    ({ connectedTo [frameOf 0 addEventPayload, frameOf 0 emptySelectPayload] with
        requestId := 4294967295 }.Execute jsonUnmarshal "select * from stocks").2.requestId = 0 ∧
    ({ connectedTo [frameOf 0 addEventPayload, frameOf 0 emptySelectPayload] with
        requestId := 4294967295 }.Execute jsonUnmarshal "select * from stocks").2.Action = "add" ∧
    ({ connectedTo [frameOf 0 addEventPayload, frameOf 0 emptySelectPayload] with
        requestId := 4294967295 }.Execute jsonUnmarshal "select * from stocks").2.rw.incoming
      = [frameOf 0 emptySelectPayload] := by
  decide

/-- C5 (evaluation of the code at the failing input): the server answers the command, under
its request id, with an error response. `unmarshalJSON` stores the payload in `rawjson` and
then calls `setErrorString`, whose reset clears it: right after `Execute`, `JSON()` is the
empty string and not the payload received. -/
theorem JSON_empty_after_error :
    ((connectedTo [frameOf 2 errPayload]).Execute jsonUnmarshal "insert into stocks (ticker) values (IBM)").2.JSON
      = "" ∧
    ((connectedTo [frameOf 2 errPayload]).Execute jsonUnmarshal "insert into stocks (ticker) values (IBM)").2.JSON
      ≠ errPayload := by
  decide

/-- What `JSON()` returns in general: on a valid connection whose write succeeds, let `b` be
the payload of the frame that carries the request id of the command (frames with request id
0 before it are skipped). Right after `Execute`, `JSON()` is `b` when `b` unmarshals without
error and its status is `ok`; otherwise the reset of the error path has cleared it. -/
theorem JSON_after_Execute (u : Unmarshal) (c : client) (command : String) (evs : List String)
    (h : NetworkHeader) (b : String) (rest : List ReadOutcome)
    (hv : c.rw.valid = true) (hw : c.rw.outcomes.head?.join = none)
    (hin : c.rw.incoming = evs.map (frameOf 0) ++ .frame h b :: rest)
    (hid : (c.requestId + 1) % 2 ^ 32 ≠ 0 ∨ evs = [])
    (hh : h.RequestId % 2 ^ 32 = (c.requestId + 1) % 2 ^ 32) :
    (c.Execute u command).2.JSON =
      if (u b c.response.reset).2 = none ∧ (u b c.response.reset).1.Status = "ok" then b
      else "" := by
  rw [Execute_decided u c command evs h b rest hv hw hin hid (Or.inr hh), if_pos hh]
  unfold unmarshalJSON
  simp only [sent, reset_response]
  rcases hu : u b c.response.reset with ⟨r, _ | e⟩
  · by_cases hs : r.Status = "ok"
    · simp [hs, JSON]
    · simp [hs, JSON]
  · simp [JSON]

/-- An instance of the general statement on `JSON()`: the response to an insert, received
after one pubsub event. -/
theorem JSON_after_Execute_witness :
    (connectedTo [frameOf 0 addEventPayload, frameOf 2 insertPayload]).rw.valid = true ∧
    ((connectedTo [frameOf 0 addEventPayload, frameOf 2 insertPayload]).Execute jsonUnmarshal
        "insert into stocks (ticker) values (IBM)").2.JSON =
      (if (jsonUnmarshal insertPayload
            (connectedTo [frameOf 0 addEventPayload, frameOf 2 insertPayload]).response.reset).2
            = none ∧
          (jsonUnmarshal insertPayload
            (connectedTo [frameOf 0 addEventPayload, frameOf 2 insertPayload]).response.reset
            ).1.Status = "ok"
        then insertPayload else "") :=
  ⟨by decide,
   JSON_after_Execute jsonUnmarshal
    (connectedTo [frameOf 0 addEventPayload, frameOf 2 insertPayload])
    "insert into stocks (ticker) values (IBM)" [addEventPayload]
    { MessageSize := insertPayload.utf8ByteSize, RequestId := 2 } insertPayload []
    (by decide) (by decide) (by decide) (Or.inl (by decide)) (by decide)⟩

end client

/-! ### Client: reading a result set in batches -/

theorem isBatching_start_le (R : Int) :
    ∀ (fs : List Batch) (start : Int), isBatching R start fs = true → start ≤ R + 1 := by
  intro fs
  induction fs with
  | nil =>
    intro start h
    simp only [isBatching, beq_iff_eq] at h
    omega
  | cons f fs ih =>
    intro start h
    simp only [isBatching, Bool.and_eq_true, beq_iff_eq, decide_eq_true_eq] at h
    have := ih _ h.2
    omega

theorem isBatching_last (R : Int) (fs : List Batch) (h : isBatching R (R + 1) fs = true) :
    fs = [] := by
  cases fs with
  | nil => rfl
  | cons f fs =>
    simp only [isBatching, Bool.and_eq_true, beq_iff_eq, decide_eq_true_eq] at h
    have := isBatching_start_le R fs _ h.2
    omega

theorem Cursor.to_le {u : Unmarshal} {R : Int} {rest : List ReadOutcome} {frames : List Batch}
    {c : client} (hc : Cursor u R rest frames c) : c.response.Torow ≤ R := by
  have := isBatching_start_le R frames _ hc.chain
  omega

/-- When nothing remains, the frames of the result set have all been read. -/
theorem Cursor.done {u : Unmarshal} {R : Int} {rest : List ReadOutcome} {frames : List Batch}
    {c : client} (hc : Cursor u R rest frames c) (h0 : remaining c = 0) :
    c.rw.incoming = rest := by
  have hto := hc.to_le
  have hT : c.response.Torow = R := by
    rcases hc.rec_le with h | h
    · have : c.response.Rows - c.response.Fromrow - c.record ≤ 0 := by
        unfold remaining at h0
        omega
      have := hc.rows
      omega
    · exact h
  have hch := hc.chain
  rw [hT] at hch
  have := isBatching_last R frames hch
  rw [hc.incoming, this]
  rfl


theorem client.unmarshalJSON_ok (u : Unmarshal) (c : client) (b : String)
    (h1 : (u b c.response).2 = none) (h2 : (u b c.response).1.Status = "ok") :
    c.unmarshalJSON u b = (true, { c with rawjson := b, response := (u b c.response).1 }) := by
  unfold client.unmarshalJSON
  rcases hu : u b c.response with ⟨r, _ | e⟩
  · rw [hu] at h2
    simp only at h2
    simp only [hu, h2, bne_self_eq_false, Bool.false_eq_true, if_false]
  · rw [hu] at h1
    simp at h1

theorem client.unmarshalJSON_rw (u : Unmarshal) (c : client) (b : String) :
    (c.unmarshalJSON u b).2.rw = c.rw := by
  unfold client.unmarshalJSON
  rcases hu : u b c.response with ⟨r, _ | e⟩
  · simp only [hu]
    split <;> rfl
  · simp only [hu]
    rfl

/-- Fuel above the number of incoming deliveries is not used up by the loop of
`NextRecord`. -/
theorem client.nextRecordLoop_fuel (u : Unmarshal) :
    ∀ (fuel1 fuel2 : Nat) (c : client), c.rw.incoming.length < fuel1 →
      c.rw.incoming.length < fuel2 →
      client.nextRecordLoop u fuel1 c = client.nextRecordLoop u fuel2 c := by
  intro fuel1
  induction fuel1 with
  | zero => intro fuel2 c h1; omega
  | succ n ih =>
    intro fuel2 c h1 h2
    cases fuel2 with
    | zero => omega
    | succ m =>
      unfold client.nextRecordLoop
      by_cases hok : c.Ok = true
      · simp only [hok, if_true]
        by_cases hr : c.response.Rows = 0
        · simp only [hr, if_true]
        · simp only [hr, if_false]
          generalize hc2 : (if c.response.Fromrow = 0 ∨ c.response.Torow = 0 then
            c.setErrorString "protocol error invalid fromrow, torow values" else c) = c2
          have hrw : c2.rw = c.rw := by
            rw [← hc2]
            split <;> rfl
          by_cases h3 : c2.record + 1 ≤ c2.response.Torow - c2.response.Fromrow
          · simp only [h3, if_true]
          · simp only [h3, if_false]
            by_cases h4 : c2.response.Rows = c2.response.Torow
            · simp only [h4, if_true]
            · simp only [h4, if_false]
              rcases hread : ({ c2 with record := c2.record + 1 } : client).reset.read with
                ⟨_ | ⟨header, bytes⟩, c3⟩
              · rfl
              · obtain ⟨rest, hc3, hlen⟩ := client.read_some _ c3 _ hread
                have hl : c3.rw.incoming.length = rest.length := by rw [hc3]
                simp only [client.reset_rw, hrw] at hlen
                by_cases h5 : header.RequestId = c3.requestId
                · simp only [h5, ne_eq, not_true_eq_false, if_false]
                  apply ih
                  · rw [client.unmarshalJSON_rw]; omega
                  · rw [client.unmarshalJSON_rw]; omega
                · simp only [h5, ne_eq, not_false_eq_true, if_true]
      · simp only [hok, if_false]
        simp

/-- One call of `NextRecord` while a result set is being read: it returns true exactly when
a record remains, the number of remaining records goes down by one, and the client keeps
reading the result set. -/
theorem NextRecord_step (u : Unmarshal) (R : Int) (rest : List ReadOutcome)
    (frames : List Batch) (c : client) (hR : 1 ≤ R) (hc : Cursor u R rest frames c) :
    (c.NextRecord u).1 = decide (0 < remaining c) ∧
    remaining (c.NextRecord u).2 = remaining c - 1 ∧
    ∃ frames', Cursor u R rest frames' (c.NextRecord u).2 := by
  have hto := hc.to_le
  obtain ⟨hok, hvalid, hrows, hfp, hfl, hrg, hrl, hin, hid, hch, hdec⟩ := hc
  obtain ⟨Client, rw, requestId, err, rawjson, response, record⟩ := c
  obtain ⟨valid, incoming, outcomes, written⟩ := rw
  simp only at hok hvalid hrows hfp hfl hrg hrl hin hid hch hto
  subst hok hvalid hin
  have hR0 : response.Rows ≠ 0 := by omega
  have hF : ¬ (response.Fromrow = 0 ∨ response.Torow = 0) := by omega
  unfold client.NextRecord client.nextRecordLoop
  simp only [client.Ok, beq_self_eq_true, if_true, hR0, if_false, hF, remaining]
  by_cases h1 : record + 1 ≤ response.Torow - response.Fromrow
  · simp only [h1, if_true]
    refine ⟨?_, ?_, frames, ?_⟩
    · exact (decide_eq_true (by omega)).symm
    · omega
    · exact ⟨rfl, rfl, hrows, hfp, hfl, by simp only; omega, Or.inl h1, rfl, hid, hch, hdec⟩
  · simp only [h1, if_false]
    by_cases h2 : response.Rows = response.Torow
    · simp only [h2, if_true]
      refine ⟨?_, ?_, frames, ?_⟩
      · exact (decide_eq_false (by omega)).symm
      · omega
      · exact ⟨rfl, rfl, hrows, hfp, hfl, by simp only; omega, Or.inr (by simp only; omega), rfl, hid,
          hch, hdec⟩
    · simp only [h2, if_false]
      have hlt : response.Torow < R := by omega
      cases frames with
      | nil =>
        simp only [isBatching, beq_iff_eq] at hch
        omega
      | cons f fs =>
        simp only [isBatching, Bool.and_eq_true, beq_iff_eq, decide_eq_true_eq] at hch
        obtain ⟨⟨hfa, hfab⟩, hch1⟩ := hch
        have hd := hdec f (List.mem_cons_self _ _)
        simp only [List.map_cons, List.cons_append, List.length_cons]
        rw [client.read_frame _ ⟨f.bytes.utf8ByteSize, requestId⟩ f.bytes
          (fs.map (fun f => frameOf requestId f.bytes) ++ rest) rfl rfl]
        simp only [Nat.mod_eq_of_lt hid, client.reset_requestId, client.reset_rw,
          client.reset_err, client.reset_rawjson, client.reset_record, client.reset_response,
          ne_eq, not_true_eq_false, if_false]
        obtain ⟨hd1, hd2, hd3, hd4, hd5⟩ := hd response.reset
        rw [client.unmarshalJSON_ok u _ f.bytes hd1 hd2]
        simp only
        rw [client.nextRecordLoop]
        generalize (u f.bytes response.reset).1 = r1 at hd2 hd3 hd4 hd5 ⊢
        have hr0 : r1.Rows ≠ 0 := by omega
        have hrF : ¬ (r1.Fromrow = 0 ∨ r1.Torow = 0) := by omega
        have hr1 : (-1 : Int) + 1 ≤ r1.Torow - r1.Fromrow := by omega
        simp only [client.Ok, beq_self_eq_true, if_true, hr0, if_false, hrF, hr1]
        refine ⟨?_, ?_, fs, ?_⟩
        · exact (decide_eq_true (by omega)).symm
        · omega
        · refine ⟨rfl, rfl, hd3, by simp only; omega, by simp only; omega, by simp,
            Or.inl hr1, rfl, hid, ?_, ?_⟩
          · rw [hd5]
            exact hch1
          · intro g hg
            exact hdec g (List.mem_cons_of_mem _ hg)

/-- Successive calls of `NextRecord` while a result set is being read: the calls return
true as long as records remain and false afterwards, and once nothing remains the frames
of the result set have all been read. -/
theorem nextRecords_cursor (u : Unmarshal) (R : Int) (rest : List ReadOutcome) (hR : 1 ≤ R) :
    ∀ (n : Nat) (frames : List Batch) (c : client), Cursor u R rest frames c →
      (client.nextRecords u n c).1 =
        List.replicate (min n (remaining c)) true ++ List.replicate (n - remaining c) false ∧
      (remaining c ≤ n → (client.nextRecords u n c).2.rw.incoming = rest) := by
  intro n
  induction n with
  | zero =>
    intro frames c hc
    refine ⟨by simp [client.nextRecords], fun h => ?_⟩
    exact hc.done (by omega)
  | succ n ih =>
    intro frames c hc
    obtain ⟨hb, hrem, frames1, hc1⟩ := NextRecord_step u R rest frames c hR hc
    obtain ⟨ih1, ih2⟩ := ih frames1 _ hc1
    simp only [client.nextRecords]
    rw [ih1, hb, hrem]
    rcases hk : remaining c with _ | k
    · refine ⟨?_, fun _ => ih2 (by omega)⟩
      simp [List.replicate_succ]
    · refine ⟨?_, fun h => ih2 (by omega)⟩
      simp [List.replicate_succ, Nat.succ_min_succ]

/-- Reading a result set whose frames follow one another on the connection, with no other
frame before the first or between two of them: a command is executed on a valid connection
and the next deliveries are the frames `f :: fs`, all `ok` frames under the request id of
the command with `rows = R`, `R ≥ 1`, the first starting at row 1, each starting one row
after the end of the frame before it, none empty, the last ending at row `R`. Then
`Execute` succeeds having read the first frame only, the first `R` calls of `NextRecord`
return true and every later call returns false, and after `R` or more calls exactly the
further frames `fs` have been read. Moreover, on a response with `rows = 0`, `NextRecord`
returns false and leaves the client, its connection included, as it was. -/
theorem NextRecord_reads_batches (u : Unmarshal) (c : client) (command : String) (R : Nat)
    (f : Batch) (fs : List Batch) (rest : List ReadOutcome)
    (hv : c.rw.valid = true) (hw : c.rw.outcomes.head?.join = none)
    (hin : c.rw.incoming =
      (f :: fs).map (fun g => frameOf ((c.requestId + 1) % 2 ^ 32) g.bytes) ++ rest)
    (hR : 1 ≤ R) (hchain : isBatching R 1 (f :: fs) = true)
    (hdec : ∀ g ∈ f :: fs, Decodes u R g) :
    (c.Execute u command).1 = true ∧
    (c.Execute u command).2.rw.incoming =
      fs.map (fun g => frameOf ((c.requestId + 1) % 2 ^ 32) g.bytes) ++ rest ∧
    (∀ n : Nat, (client.nextRecords u n (c.Execute u command).2).1 =
      List.replicate (min n R) true ++ List.replicate (n - R) false) ∧
    (∀ n : Nat, (client.nextRecords u (R + n) (c.Execute u command).2).2.rw.incoming = rest) ∧
    (∀ c0 : client, c0.response.Rows = 0 → c0.NextRecord u = (false, c0)) := by
  have hd := hdec f (List.mem_cons_self _ _)
  obtain ⟨hd1, hd2, hd3, hd4, hd5⟩ := hd c.response.reset
  simp only [isBatching, Bool.and_eq_true, beq_iff_eq, decide_eq_true_eq] at hchain
  obtain ⟨⟨hfa, hfab⟩, hch1⟩ := hchain
  have hex : c.Execute u command =
      (true, { c.sent command
                (fs.map (fun g => frameOf ((c.requestId + 1) % 2 ^ 32) g.bytes) ++ rest) with
               rawjson := f.bytes, response := (u f.bytes c.response.reset).1 }) := by
    rw [client.Execute_decided u c command [] ⟨f.bytes.utf8ByteSize, (c.requestId + 1) % 2 ^ 32⟩
      f.bytes _ hv hw hin (Or.inr rfl) (Or.inr (Nat.mod_mod _ _))]
    rw [if_pos (Nat.mod_mod _ _)]
    exact client.unmarshalJSON_ok u _ f.bytes hd1 hd2
  have hcur : Cursor u R rest fs (c.Execute u command).2 := by
    rw [hex]
    refine ⟨rfl, hv, hd3, ?_, ?_, by simp [client.sent], Or.inl ?_, rfl, ?_, ?_, ?_⟩
    · simp only [hd4, hfa]; omega
    · simp only [hd4, hd5]; exact hfab
    · simp only [client.sent, client.reset_record, hd4, hd5]; omega
    · exact Nat.mod_lt _ (by norm_num)
    · simp only [hd5]; exact hch1
    · intro g hg
      exact hdec g (List.mem_cons_of_mem _ hg)
  have hrem : remaining (c.Execute u command).2 = R := by
    rw [hex]
    simp only [remaining, client.sent, client.reset_record, hd3, hd4, hfa]
    omega
  have hRi : (1 : Int) ≤ R := by exact_mod_cast hR
  refine ⟨by rw [hex], by rw [hex]; rfl, fun n => ?_, fun n => ?_, fun c0 h0 => ?_⟩
  · have := (nextRecords_cursor u R rest hRi n fs _ hcur).1
    rw [hrem] at this
    exact this
  · exact (nextRecords_cursor u R rest hRi (R + n) fs _ hcur).2 (by omega)
  · unfold client.NextRecord client.nextRecordLoop
    by_cases hok : c0.Ok = true
    · simp [hok, h0]
    · simp [hok]

/-- An instance with frames that follow one another: a select of three rows answered in two
batches (rows 1 to 2, then row 3), followed on the connection by a pubsub event: three calls
of `NextRecord` return true, the later ones false, and the event is still unread. -/
theorem NextRecord_reads_batches_witness :
    isBatching ((3 : Nat) : Int) 1 [selectBatch1, selectBatch2] = true ∧
    (((connectedTo [frameOf 2 selectBatch1.bytes, frameOf 2 selectBatch2.bytes,
        frameOf 0 addEventPayload]).Execute jsonUnmarshal "select * from stocks").1 = true ∧
     ((connectedTo [frameOf 2 selectBatch1.bytes, frameOf 2 selectBatch2.bytes,
        frameOf 0 addEventPayload]).Execute jsonUnmarshal "select * from stocks").2.rw.incoming =
      [selectBatch2].map (fun g => frameOf
        (((connectedTo [frameOf 2 selectBatch1.bytes, frameOf 2 selectBatch2.bytes,
          frameOf 0 addEventPayload]).requestId + 1) % 2 ^ 32) g.bytes) ++
        [frameOf 0 addEventPayload] ∧
     (∀ n : Nat, (client.nextRecords jsonUnmarshal n
        ((connectedTo [frameOf 2 selectBatch1.bytes, frameOf 2 selectBatch2.bytes,
          frameOf 0 addEventPayload]).Execute jsonUnmarshal "select * from stocks").2).1 =
      List.replicate (min n 3) true ++ List.replicate (n - 3) false) ∧
     (∀ n : Nat, (client.nextRecords jsonUnmarshal (3 + n)
        ((connectedTo [frameOf 2 selectBatch1.bytes, frameOf 2 selectBatch2.bytes,
          frameOf 0 addEventPayload]).Execute jsonUnmarshal "select * from stocks").2
        ).2.rw.incoming = [frameOf 0 addEventPayload]) ∧
     (∀ c0 : client, c0.response.Rows = 0 → c0.NextRecord jsonUnmarshal = (false, c0))) :=
  ⟨by decide,
   NextRecord_reads_batches jsonUnmarshal
    (connectedTo [frameOf 2 selectBatch1.bytes, frameOf 2 selectBatch2.bytes,
      frameOf 0 addEventPayload])
    "select * from stocks" 3 selectBatch1 [selectBatch2] [frameOf 0 addEventPayload]
    (by decide) (by decide) (by decide) (by decide) (by decide)
    (by
      intro g hg
      simp only [List.mem_cons, List.mem_singleton, List.not_mem_nil, or_false] at hg
      rcases hg with rfl | rfl
      · intro r
        exact ⟨rfl, rfl, rfl, rfl, rfl⟩
      · intro r
        exact ⟨rfl, rfl, rfl, rfl, rfl⟩)⟩

/-- C3 (evaluation of the code at the failing input): a select of three rows is answered in
two batches (rows 1 to 2, then row 3), both under the request id of the command, and a
pubsub event (request id 0) arrives between them. `Execute` succeeds and reports three
records; the first two calls of `NextRecord` return true; the third reads the event, takes
its request id for a protocol error and returns false, so `NextRecord` has returned true
twice and not three times, the client is failed and the second batch is left unread.
`Execute` itself skips an event that arrives before the first batch. -/
theorem NextRecord_fails_on_event_between_batches :
    ((connectedTo [frameOf 2 selectBatch1.bytes, frameOf 0 addEventPayload,
        frameOf 2 selectBatch2.bytes]).Execute jsonUnmarshal "select * from stocks").1 = true ∧
    ((connectedTo [frameOf 2 selectBatch1.bytes, frameOf 0 addEventPayload,
        frameOf 2 selectBatch2.bytes]).Execute jsonUnmarshal "select * from stocks").2.RecordCount
      = 3 ∧
    (client.nextRecords jsonUnmarshal 3
      ((connectedTo [frameOf 2 selectBatch1.bytes, frameOf 0 addEventPayload,
        frameOf 2 selectBatch2.bytes]).Execute jsonUnmarshal "select * from stocks").2).1
      = [true, true, false] ∧
    (client.nextRecords jsonUnmarshal 3
      ((connectedTo [frameOf 2 selectBatch1.bytes, frameOf 0 addEventPayload,
        frameOf 2 selectBatch2.bytes]).Execute jsonUnmarshal "select * from stocks").2).2.Error
      = "protocol error" ∧
    (client.nextRecords jsonUnmarshal 3
      ((connectedTo [frameOf 2 selectBatch1.bytes, frameOf 0 addEventPayload,
        frameOf 2 selectBatch2.bytes]).Execute jsonUnmarshal "select * from stocks").2
      ).2.rw.incoming = [frameOf 2 selectBatch2.bytes] ∧
    (client.nextRecords jsonUnmarshal 5
      ((connectedTo [frameOf 2 selectBatch1.bytes, frameOf 0 addEventPayload,
        frameOf 2 selectBatch2.bytes]).Execute jsonUnmarshal "select * from stocks").2).1
      = [true, true, false, false, false] ∧
    ((connectedTo [frameOf 0 addEventPayload, frameOf 2 selectBatch1.bytes,
        frameOf 2 selectBatch2.bytes]).Execute jsonUnmarshal "select * from stocks").1 = true ∧
    ((connectedTo [frameOf 0 addEventPayload, frameOf 2 selectBatch1.bytes,
        frameOf 2 selectBatch2.bytes]).Execute jsonUnmarshal "select * from stocks").2.rw.incoming
      = [frameOf 2 selectBatch2.bytes] := by
  decide

/-! ### JSON responses: theorems -/

theorem separated_cons (x : List JSONEvent) (xs : List (List JSONEvent)) :
    separated (x :: xs) = x ++ preceded xs := by
  induction xs generalizing x with
  | nil => simp [separated, preceded]
  | cons y rest ih => simp [separated, preceded, ih y]

theorem rowLoop_succ (rec : record) :
    ∀ (columns : List column) (i : Nat) (builder : JSONBuilder),
      rowLoop rec (i + 1) columns builder =
        builder ++ preceded ((rowMembers rec (i + 1) columns).map
          (fun m => [JSONEvent.nameValue m.1 m.2])) := by
  intro columns
  induction columns with
  | nil => intro i builder; simp [rowLoop, rowMembers, preceded]
  | cons col columns ih =>
    intro i builder
    simp [rowLoop, rowMembers, preceded, ih, JSONBuilder.valueSeparator, JSONBuilder.nameValue]

/-- The function `row` appends the row object of the record for the columns. -/
theorem row_eq (builder : JSONBuilder) (columns : List column) (rec : record) :
    row builder columns rec = builder ++ JSONRow (rowMembers rec 0 columns) := by
  cases columns with
  | nil => simp [row, rowLoop, rowMembers, JSONRow, separated, JSONBuilder.beginObject,
      JSONBuilder.endObject]
  | cons col columns =>
    simp [row, rowLoop, rowMembers, JSONRow, separated_cons, rowLoop_succ,
      JSONBuilder.beginObject, JSONBuilder.endObject, JSONBuilder.nameValue]

theorem dataLoop_succ (columns : List column) :
    ∀ (records : List record) (i : Nat) (builder : JSONBuilder),
      dataLoop columns (i + 1) records builder =
        builder ++ preceded (records.map (fun rec => JSONRow (rowMembers rec 0 columns))) := by
  intro records
  induction records with
  | nil => intro i builder; simp [dataLoop, preceded]
  | cons rec records ih =>
    intro i builder
    simp [dataLoop, preceded, ih, row_eq, JSONBuilder.valueSeparator]

theorem dataLoop_zero (columns : List column) (records : List record) (builder : JSONBuilder) :
    dataLoop columns 0 records builder =
      builder ++ separated (records.map (fun rec => JSONRow (rowMembers rec 0 columns))) := by
  cases records with
  | nil => simp [dataLoop, separated]
  | cons rec records => simp [dataLoop, separated_cons, dataLoop_succ, row_eq]

/-- `sqlSelectResponse.data` appends the member `rows`, with the number of records, and the
member `data`, with one row object per record. -/
theorem data_eq (this : sqlSelectResponse) (builder : JSONBuilder) :
    this.data builder =
      builder ++ separated ([("rows", JSONValue.int this.records.length),
        ("data", JSONValue.rows (this.records.map (fun rec => rowMembers rec 0 this.columns)))].map
          JSONMember) := by
  simp [sqlSelectResponse.data, dataLoop_zero, separated, JSONMember, JSONBuilder.nameIntValue,
    JSONBuilder.valueSeparator, JSONBuilder.string, JSONBuilder.nameSeparator,
    JSONBuilder.beginArray, JSONBuilder.endArray, Function.comp_def]

/-- C6 (evaluation of the code at the failing input): the payload of a select response with
the columns `id` and `ticker` and one record. Its members are `status`, `action`, `rows` and
`data`; it has no member `fromrow` and no member `torow`, and the client of the repository,
which takes a response with `rows` > 0 and `fromrow` or `torow` equal to 0 for a protocol
error, finds both to be 0 when it unmarshals the payload. -/
theorem select_payload_lacks_fromrow_torow :
    JSONText selectExample.toNetworkReadyJSON =
      "\x7b\"status\":\"ok\",\"action\":\"select\",\"rows\":1," ++
      "\"data\":[\x7b\"id\":\"0\",\"ticker\":\"IBM\"\x7d]\x7d" ∧
    memberNames 0 selectExample.toNetworkReadyJSON = ["status", "action", "rows", "data"] ∧
    "fromrow" ∉ memberNames 0 selectExample.toNetworkReadyJSON ∧
    "torow" ∉ memberNames 0 selectExample.toNetworkReadyJSON ∧
    (jsonUnmarshal (JSONText selectExample.toNetworkReadyJSON) responseData.zero).1.Fromrow = 0 ∧
    (jsonUnmarshal (JSONText selectExample.toNetworkReadyJSON) responseData.zero).1.Torow = 0 := by
  decide

/-- What `sqlSelectResponse.toNetworkReadyJSON` emits for every select response: the object
with the members `status` = "ok", `action` = "select", `rows` = the number of records, and
`data` = the array with one row object per record, in that order, and nothing else; the row
object of a record has one member per column, named by the column and valued by the record
at the position of the column. -/
theorem select_members (this : sqlSelectResponse) :
    this.toNetworkReadyJSON =
      JSONObject [("status", .str "ok"), ("action", .str "select"),
        ("rows", .int this.records.length),
        ("data", .rows (this.records.map (fun rec => rowMembers rec 0 this.columns)))] := by
  simp [sqlSelectResponse.toNetworkReadyJSON, data_eq, JSONObject, separated, JSONMember,
    JSONBuilder.networkReady, JSONBuilder.beginObject, JSONBuilder.endObject, JSONBuilder.ok,
    JSONBuilder.action, JSONBuilder.nameValue, JSONBuilder.valueSeparator,
    JSONBuilder.getNetworkBytes]

/-- C7: for every id string `s`, the payload of the insert response is the object with
exactly the three members `status` = "ok", `action` = "insert", `id` = `s`, in that order;
the builder is called for one object begin, the three members with one value separator
after the first and one after the second (two in all), and one object end; for `s` = "0"
the text is the literal payload of the spec. -/
theorem insert_json (s : String) :
    sqlInsertResponse.toNetworkReadyJSON { id := s } =
      [.beginObject, .nameValue "status" "ok", .valueSeparator, .nameValue "action" "insert",
        .valueSeparator, .nameValue "id" s, .endObject] ∧
    sqlInsertResponse.toNetworkReadyJSON { id := s } =
      JSONObject [("status", .str "ok"), ("action", .str "insert"), ("id", .str s)] ∧
    (sqlInsertResponse.toNetworkReadyJSON { id := s }).count .valueSeparator = 2 ∧
    JSONText (sqlInsertResponse.toNetworkReadyJSON { id := "0" }) =
      "\x7b\"status\":\"ok\",\"action\":\"insert\",\"id\":\"0\"\x7d" := by
  refine ⟨rfl, rfl, ?_, by decide⟩
  simp [sqlInsertResponse.toNetworkReadyJSON, JSONBuilder.networkReady,
    JSONBuilder.beginObject, JSONBuilder.endObject, JSONBuilder.ok, JSONBuilder.action,
    JSONBuilder.id, JSONBuilder.nameValue, JSONBuilder.valueSeparator,
    JSONBuilder.getNetworkBytes, List.count_cons]

/-- C8: for every pubsubid `p` and row id `s`, the payload of the remove event is the object
with exactly the members `status` = "ok", `action` = "remove", `pubsubid` = the decimal
string of `p`, `id` = `s`, in that order, and the payload of the delete event is the same
object with `action` = "delete". -/
theorem remove_delete_json (p : Nat) (s : String) :
    sqlActionRemoveResponse.toNetworkReadyJSON { id := s, pubsubid := p } =
      JSONObject [("status", .str "ok"), ("action", .str "remove"),
        ("pubsubid", .str (toString p)), ("id", .str s)] ∧
    sqlActionDeleteResponse.toNetworkReadyJSON { id := s, pubsubid := p } =
      JSONObject [("status", .str "ok"), ("action", .str "delete"),
        ("pubsubid", .str (toString p)), ("id", .str s)] ∧
    sqlActionRemoveResponse.toNetworkReadyJSON { id := s, pubsubid := p } =
      [.beginObject, .nameValue "status" "ok", .valueSeparator, .nameValue "action" "remove",
        .valueSeparator, .nameValue "pubsubid" (Nat.repr p), .valueSeparator,
        .nameValue "id" s, .endObject] ∧
    sqlActionDeleteResponse.toNetworkReadyJSON { id := s, pubsubid := p } =
      [.beginObject, .nameValue "status" "ok", .valueSeparator, .nameValue "action" "delete",
        .valueSeparator, .nameValue "pubsubid" (Nat.repr p), .valueSeparator,
        .nameValue "id" s, .endObject] :=
  ⟨rfl, rfl, rfl, rfl⟩

theorem take_set_succ (v : String) :
    ∀ (l : List String) (idx : Nat), idx < l.length →
      (l.set idx v).take (idx + 1) = l.take idx ++ [v] := by
  intro l
  induction l with
  | nil => intro idx h; simp at h
  | cons x l ih =>
    intro idx h
    cases idx with
    | zero => simp
    | succ n =>
      simp only [List.length_cons, Nat.add_lt_add_iff_right] at h
      simp [ih n h]

/-- The loop of `newSqlActionUpdateResponse` fills the positions from `idx` on with the
values of the record at the ordinals of the columns. -/
theorem copyLoop_values (rec : record) :
    ∀ (cols : List column) (idx : Nat) (dest : record),
      dest.values.length = idx + cols.length →
      (copyLoop rec idx cols dest).values =
        dest.values.take idx ++ cols.map (fun c => rec.getValue c.ordinal) := by
  intro cols
  induction cols with
  | nil =>
    intro idx dest h
    simp only [List.length_nil, Nat.add_zero] at h
    simp [copyLoop, ← h]
  | cons col cols ih =>
    intro idx dest h
    simp only [List.length_cons] at h
    have hlt : idx < dest.values.length := by omega
    have hset : dest.setValue idx (rec.getValue col.ordinal) =
        { values := dest.values.set idx (rec.getValue col.ordinal) } := by
      simp [record.setValue, hlt]
    rw [copyLoop, hset, ih (idx + 1) _ (by simp; omega)]
    simp [take_set_succ _ _ _ hlt]

theorem getD_append_length (x : String) (rest : List String) :
    ∀ pre : List String, (pre ++ x :: rest).getD pre.length "" = x := by
  intro pre
  induction pre with
  | nil => rfl
  | cons y pre ih => simpa using ih

/-- The row members of a record whose values from the position `pre.length` on were copied
for the columns. -/
theorem rowMembers_copied (g : column → String) :
    ∀ (cols : List column) (pre : List String),
      rowMembers { values := pre ++ cols.map g } pre.length cols =
        cols.map (fun c => (c.name, g c)) := by
  intro cols
  induction cols with
  | nil => intro pre; simp [rowMembers]
  | cons col cols ih =>
    intro pre
    have h := ih (pre ++ [g col])
    simp only [List.length_append, List.length_singleton, List.append_assoc,
      List.singleton_append] at h
    have hget := getD_append_length (g col) (cols.map g) pre
    simp only [rowMembers, record.getValue, List.map_cons, hget, h]

/-- C9: for every pubsubid `p`, column list `cols` and record `rec`, the payload of
`newSqlActionUpdateResponse(p, cols, rec)` is the object with exactly the members
`status` = "ok", `action` = "update", `pubsubid` = the decimal string of `p`, and `data`, in
that order, so without a member `rows`; `data` is the array of exactly one row object, whose
members are, in the order of `cols`, the name of the column and the value of `rec` at the
ordinal of the column. -/
theorem update_event_json (p : Nat) (cols : List column) (rec : record) :
    (newSqlActionUpdateResponse p cols rec).toNetworkReadyJSON =
      JSONObject [("status", .str "ok"), ("action", .str "update"),
        ("pubsubid", .str (toString p)),
        ("data", .rows [cols.map (fun c => (c.name, rec.getValue c.ordinal))])] := by
  have hcopy : (copyLoop rec 0 cols { values := List.replicate cols.length "" }).values =
      cols.map (fun c => rec.getValue c.ordinal) := by
    rw [copyLoop_values rec cols 0 _ (by simp)]
    simp
  have hrow : rowMembers (copyLoop rec 0 cols { values := List.replicate cols.length "" }) 0 cols =
      cols.map (fun c => (c.name, rec.getValue c.ordinal)) := by
    have h := rowMembers_copied (fun c => rec.getValue c.ordinal) cols []
    simp only [List.nil_append, List.length_nil] at h
    rw [← hcopy] at h
    exact h
  have hp : FormatUint p 10 = toString p := rfl
  simp [sqlActionUpdateResponse.toNetworkReadyJSON, newSqlActionUpdateResponse, row_eq, hrow, hp,
    JSONObject, separated, JSONMember, JSONBuilder.networkReady, JSONBuilder.beginObject,
    JSONBuilder.endObject, JSONBuilder.ok, JSONBuilder.action, JSONBuilder.nameValue,
    JSONBuilder.valueSeparator, JSONBuilder.string, JSONBuilder.nameSeparator,
    JSONBuilder.beginArray, JSONBuilder.endArray, JSONBuilder.getNetworkBytes]

/-! ### The embedded interface value of a client is never assigned -/

theorem client.write_Client (c : client) (message : String) :
    (c.write message).2.Client = c.Client := by
  rw [client.write_eq]
  by_cases hv : c.rw.valid = true
  · rw [if_pos hv]
    cases c.rw.outcomes.head?.join <;> rfl
  · rw [if_neg hv]
    rfl

theorem client.read_Client (c : client) : c.read.2.Client = c.Client := by
  unfold client.read
  split
  · rcases hin : c.rw.incoming with _ | ⟨o, rest⟩
    · simp [NetMessageReaderWriter.ReadMessage, hin, client.setErrorString, client.reset,
        client.resetError]
    · cases o <;>
        simp [NetMessageReaderWriter.ReadMessage, hin, client.setErrorString, client.reset,
          client.resetError]
  · rfl

theorem client.unmarshalJSON_Client (u : Unmarshal) (c : client) (b : String) :
    (c.unmarshalJSON u b).2.Client = c.Client := by
  unfold client.unmarshalJSON
  rcases hu : u b c.response with ⟨r, _ | e⟩
  · simp only [hu]
    split <;> rfl
  · simp only [hu]
    rfl

theorem client.executeLoop_Client (u : Unmarshal) :
    ∀ (fuel : Nat) (c : client), (client.executeLoop u fuel c).2.Client = c.Client := by
  intro fuel
  induction fuel with
  | zero => intro c; rfl
  | succ n ih =>
    intro c
    unfold client.executeLoop
    have hr := client.read_Client c
    rcases hread : c.read with ⟨_ | ⟨header, bytes⟩, c1⟩
    · rw [hread] at hr
      exact hr
    · rw [hread] at hr
      simp only at hr ⊢
      split
      · rw [client.unmarshalJSON_Client, hr]
      · split
        · rw [ih c1, hr]
        · split
          · exact hr
          · exact hr

theorem client.Execute_Client (u : Unmarshal) (c : client) (command : String) :
    (c.Execute u command).2.Client = c.Client := by
  unfold client.Execute
  have hw := client.write_Client c.reset command
  rcases hwr : c.reset.write command with ⟨_ | _, c1⟩
  · rw [hwr] at hw
    exact hw
  · rw [hwr] at hw
    simp only at hw ⊢
    rw [client.executeLoop_Client, hw]
    rfl

theorem client.nextRecordLoop_Client (u : Unmarshal) :
    ∀ (fuel : Nat) (c : client), (client.nextRecordLoop u fuel c).2.Client = c.Client := by
  intro fuel
  induction fuel with
  | zero => intro c; rfl
  | succ n ih =>
    intro c
    unfold client.nextRecordLoop
    by_cases hok : c.Ok = true
    · simp only [hok, if_true]
      by_cases hr : c.response.Rows = 0
      · simp only [hr, if_true]
      · simp only [hr, if_false]
        generalize hc2 : (if c.response.Fromrow = 0 ∨ c.response.Torow = 0 then
          c.setErrorString "protocol error invalid fromrow, torow values" else c) = c2
        have hcl : c2.Client = c.Client := by
          rw [← hc2]
          split <;> rfl
        by_cases h3 : c2.record + 1 ≤ c2.response.Torow - c2.response.Fromrow
        · simp only [h3, if_true]
          exact hcl
        · simp only [h3, if_false]
          by_cases h4 : c2.response.Rows = c2.response.Torow
          · simp only [h4, if_true]
            exact hcl
          · simp only [h4, if_false]
            have hrd := client.read_Client ({ c2 with record := c2.record + 1 } : client).reset
            rcases hread : ({ c2 with record := c2.record + 1 } : client).reset.read with
              ⟨_ | ⟨header, bytes⟩, c3⟩
            · rw [hread] at hrd
              simp only at hrd ⊢
              rw [hrd]
              exact hcl
            · rw [hread] at hrd
              simp only at hrd ⊢
              by_cases h5 : header.RequestId = c3.requestId
              · simp only [h5, ne_eq, not_true_eq_false, if_false]
                rw [ih, client.unmarshalJSON_Client, hrd]
                exact hcl
              · simp only [h5, ne_eq, not_false_eq_true, if_true]
                show c3.Client = c.Client
                rw [hrd]
                exact hcl
    · simp only [hok]
      rfl

theorem client.NextRecord_Client (u : Unmarshal) (c : client) :
    (c.NextRecord u).2.Client = c.Client :=
  client.nextRecordLoop_Client u _ c

theorem client.Disconnect_Client (c : client) : c.Disconnect.Client = c.Client :=
  client.write_Client c "close"

theorem client.Connect_Client (c : client) (dial : Except String NetMessageReaderWriter) :
    (c.Connect dial).2.Client = c.Client := by
  unfold client.Connect
  cases dial with
  | error e => exact client.Disconnect_Client c
  | ok conn => exact client.Disconnect_Client c

/-- On a client whose embedded interface value is nil, as it is for `NewClient` and after
every operation of client.go on such a client, `Value` and `ValueByColumnOrdinal` panic. -/
theorem client.Value_of_nil (c : client) (h : c.Client = none) (column : String)
    (ordinal : Int) :
    c.Value column = .error nilDereference ∧
    c.ValueByColumnOrdinal ordinal = .error nilDereference := by
  simp [client.Value, client.ValueByColumnOrdinal, h]

/-! ### Methods promoted from embedded interface values -/

/-- C11 (evaluation of the code at the failing input): client.go defines neither `Value` nor
`ValueByColumnOrdinal` on `client`, and `NewClient` leaves the embedded `Client` interface
nil. On the client returned by `NewClient` both calls panic with a nil dereference; so does
`Value` on a client that has executed a select and moved to its first record, whose column
`ticker` exists. -/
theorem Value_panics :
    NewClient.Value "ticker" = .error nilDereference ∧
    NewClient.ValueByColumnOrdinal 0 = .error nilDereference ∧
    (((connectedTo [frameOf 2 selectBatch1.bytes]).Execute jsonUnmarshal
        "select * from stocks").2.NextRecord jsonUnmarshal).1 = true ∧
    (((connectedTo [frameOf 2 selectBatch1.bytes]).Execute jsonUnmarshal
        "select * from stocks").2.NextRecord jsonUnmarshal).2.response.Data =
      [[("ticker", "IBM")], [("ticker", "MSFT")]] ∧
    (((connectedTo [frameOf 2 selectBatch1.bytes]).Execute jsonUnmarshal
        "select * from stocks").2.NextRecord jsonUnmarshal).2.Value "ticker" =
      .error nilDereference ∧
    (((connectedTo [frameOf 2 selectBatch1.bytes]).Execute jsonUnmarshal
        "select * from stocks").2.NextRecord jsonUnmarshal).2.ValueByColumnOrdinal 0 =
      .error nilDereference := by
  refine ⟨rfl, rfl, by decide, by decide, rfl, rfl⟩

/-- C16 (evaluation of the code at the failing input): the methods that return the status
are spelled `getResponsStatus` in the source, so the method `getResponseStatus` of the
interface `response` is, on these structs, the one promoted from the embedded interface
value, which `newErrorResponse`, `newOkResponse` and a `sqlInsertResponse` literal leave
nil: the call panics with a nil dereference, while `getResponsStatus` returns the status. -/
theorem getResponseStatus_panics (msg id : String) :
    (newErrorResponse msg).getResponseStatus = .error nilDereference ∧
    newOkResponse.getResponseStatus = .error nilDereference ∧
    sqlInsertResponse.getResponseStatus { id := id } = .error nilDereference ∧
    (newErrorResponse msg).getResponsStatus = .responseStatusErr ∧
    newOkResponse.getResponsStatus = .responseStatusOk ∧
    sqlInsertResponse.getResponsStatus { id := id } = .responseStatusOk :=
  ⟨rfl, rfl, rfl, rfl, rfl, rfl⟩

/-- C17 (evaluation of the code at the failing input): the server answers a select with the
payload of `selectExample`, which has `rows` = 1 and neither `fromrow` nor `torow`.
`Execute` succeeds; the first call of `NextRecord` sets the protocol error, does not return,
and returns true: afterwards `Ok()` is false, `Error()` is the protocol error and `fromrow`
is 0. -/
theorem NextRecord_true_with_error :
    JSONText selectExample.toNetworkReadyJSON =
      "\x7b\"status\":\"ok\",\"action\":\"select\",\"rows\":1," ++
      "\"data\":[\x7b\"id\":\"0\",\"ticker\":\"IBM\"\x7d]\x7d" ∧
    ((connectedTo [frameOf 2 (JSONText selectExample.toNetworkReadyJSON)]).Execute
      jsonUnmarshal "select * from stocks").1 = true ∧
    ((connectedTo [frameOf 2 (JSONText selectExample.toNetworkReadyJSON)]).Execute
      jsonUnmarshal "select * from stocks").2.RecordCount = 1 ∧
    (((connectedTo [frameOf 2 (JSONText selectExample.toNetworkReadyJSON)]).Execute
      jsonUnmarshal "select * from stocks").2.NextRecord jsonUnmarshal).1 = true ∧
    (((connectedTo [frameOf 2 (JSONText selectExample.toNetworkReadyJSON)]).Execute
      jsonUnmarshal "select * from stocks").2.NextRecord jsonUnmarshal).2.Ok = false ∧
    (((connectedTo [frameOf 2 (JSONText selectExample.toNetworkReadyJSON)]).Execute
      jsonUnmarshal "select * from stocks").2.NextRecord jsonUnmarshal).2.Error =
      "protocol error invalid fromrow, torow values" ∧
    (((connectedTo [frameOf 2 (JSONText selectExample.toNetworkReadyJSON)]).Execute
      jsonUnmarshal "select * from stocks").2.NextRecord jsonUnmarshal).2.response.Fromrow
      = 0 := by
  decide

/-! ### Tokens: theorems -/

theorem consumeAll_eq (ts : List token) :
    ∀ pc : tokensProducerConsumer,
      consumeAll ts pc = { idx := pc.idx, tokens := pc.tokens ++ ts } := by
  induction ts with
  | nil => intro pc; simp [consumeAll]
  | cons t ts ih =>
    intro pc
    have h := ih (pc.Consume t)
    simp only [consumeAll, List.foldl_cons] at h ⊢
    rw [h]
    simp [tokensProducerConsumer.Consume]

/-- `k` calls of `Produce` on a producer that has delivered the first `i` of its tokens
return the next tokens and then the end of the input, and leave the tokens as they are. -/
theorem produceMany_eq (ts : List token) :
    ∀ (k i : Nat),
      (produceMany k { idx := i, tokens := ts }).1 =
        (ts.drop i).take k ++
          List.replicate (k - (ts.length - i)) { typ := .tokenTypeEOF, val := "" } ∧
      (produceMany k { idx := i, tokens := ts }).2.tokens = ts := by
  intro k
  induction k with
  | zero => intro i; simp [produceMany]
  | succ k ih =>
    intro i
    by_cases h : i ≥ ts.length
    · have hp : tokensProducerConsumer.Produce { idx := i, tokens := ts } =
          ({ typ := .tokenTypeEOF, val := "" }, { idx := i, tokens := ts }) := by
        simp [tokensProducerConsumer.Produce, h]
      obtain ⟨ih1, ih2⟩ := ih i
      simp only [produceMany, hp]
      refine ⟨?_, ih2⟩
      rw [ih1, List.drop_eq_nil_of_le h]
      have e1 : k - (ts.length - i) = k := by omega
      have e2 : k + 1 - (ts.length - i) = k + 1 := by omega
      simp [e1, e2, List.replicate_succ]
    · have hlt : i < ts.length := by omega
      have hp : tokensProducerConsumer.Produce { idx := i, tokens := ts } =
          (ts.get ⟨i, hlt⟩, { idx := i + 1, tokens := ts }) := by
        simp [tokensProducerConsumer.Produce, h]
      obtain ⟨ih1, ih2⟩ := ih (i + 1)
      simp only [produceMany, hp]
      refine ⟨?_, ih2⟩
      have e : k + 1 - (ts.length - i) = k - (ts.length - (i + 1)) := by omega
      rw [ih1, List.drop_eq_getElem_cons hlt, List.take_succ_cons, e]
      rfl

/-- C14: after the tokens `ts` have been passed to `Consume`, in that order, on a fresh
`tokensProducerConsumer`, `k` calls of `Produce` return the first `k` tokens of `ts` in the
same order and, once `ts` is exhausted, a token of type `tokenTypeEOF` at every later call;
the stored tokens are `ts` after any number of calls. -/
theorem Produce_in_order_then_EOF (ts : List token) (k : Nat) :
    (produceMany k (consumeAll ts newTokens)).1 =
      ts.take k ++ List.replicate (k - ts.length) { typ := .tokenTypeEOF, val := "" } ∧
    (produceMany ts.length (consumeAll ts newTokens)).1 = ts ∧
    (produceMany k (consumeAll ts newTokens)).2.tokens = ts := by
  have hc : consumeAll ts newTokens = { idx := 0, tokens := ts } := by
    rw [consumeAll_eq]
    simp [newTokens]
  rw [hc]
  have h1 := produceMany_eq ts k 0
  have h2 := produceMany_eq ts ts.length 0
  simp only [List.drop_zero, Nat.sub_zero] at h1 h2
  refine ⟨h1.1, ?_, h1.2⟩
  rw [h2.1]
  simp

/-! ### Rows and data of select and event responses -/

theorem rowMembers_length (rec : record) :
    ∀ (columns : List column) (i : Nat), (rowMembers rec i columns).length = columns.length := by
  intro columns
  induction columns with
  | nil => intro i; rfl
  | cons col columns ih => intro i; simp [rowMembers, ih]

theorem rowMembers_getElem? (rec : record) :
    ∀ (columns : List column) (i j : Nat),
      (rowMembers rec i columns)[j]? =
        (columns[j]?).map (fun col => (col.name, rec.getValue (i + j))) := by
  intro columns
  induction columns with
  | nil => intro i j; simp [rowMembers]
  | cons col columns ih =>
    intro i j
    cases j with
    | zero => simp [rowMembers]
    | succ j =>
      simp only [rowMembers, List.getElem?_cons_succ, ih]
      congr 1
      funext col
      congr 2
      omega

theorem preceded_count (xs : List (List JSONEvent))
    (h : ∀ x ∈ xs, x.count JSONEvent.valueSeparator = 0) :
    (preceded xs).count JSONEvent.valueSeparator = xs.length := by
  induction xs with
  | nil => rfl
  | cons x xs ih =>
    have hx := h x (List.mem_cons_self _ _)
    have := ih (fun y hy => h y (List.mem_cons_of_mem _ hy))
    simp [preceded, List.count_cons, List.count_append, hx, this]

/-- The value separators of a row object are one less than its members. -/
theorem JSONRow_separators (members : List (String × String)) :
    (JSONRow members).count JSONEvent.valueSeparator = members.length - 1 := by
  cases members with
  | nil => simp [JSONRow, separated, List.count_cons]
  | cons m ms =>
    have := preceded_count (ms.map (fun m => [JSONEvent.nameValue m.1 m.2]))
      (by
        intro x hx
        simp only [List.mem_map] at hx
        obtain ⟨a, _, rfl⟩ := hx
        simp [List.count_cons])
    simp [JSONRow, separated_cons, List.count_cons, List.count_append, this]

/-- C15: for every select response, and for the add and the insert event response that embed
it under any pubsubid, the payload is the object whose member `rows` is the number of row
objects of its member `data` (one for an event carrying one record); each row object has
one member per column of the response, in the order of the columns, the member at position
`j` being named by the column at `j` and valued by the record at `j`; the members of a row
are separated by value separators, none before the first and none after the last, so one
less than the members. -/
theorem rows_is_number_of_data_rows (this : sqlSelectResponse) (pubsubid : Nat) :
    this.toNetworkReadyJSON =
      JSONObject [("status", .str "ok"), ("action", .str "select"),
        ("rows", .int ((this.records.map (fun rec => rowMembers rec 0 this.columns)).length)),
        ("data", .rows (this.records.map (fun rec => rowMembers rec 0 this.columns)))] ∧
    sqlActionAddResponse.toNetworkReadyJSON { data := { select := this, pubsubid := pubsubid } } =
      JSONObject [("status", .str "ok"), ("action", .str "add"),
        ("pubsubid", .str (toString pubsubid)),
        ("rows", .int ((this.records.map (fun rec => rowMembers rec 0 this.columns)).length)),
        ("data", .rows (this.records.map (fun rec => rowMembers rec 0 this.columns)))] ∧
    sqlActionInsertResponse.toNetworkReadyJSON
        { data := { select := this, pubsubid := pubsubid } } =
      JSONObject [("status", .str "ok"), ("action", .str "insert"),
        ("pubsubid", .str (toString pubsubid)),
        ("rows", .int ((this.records.map (fun rec => rowMembers rec 0 this.columns)).length)),
        ("data", .rows (this.records.map (fun rec => rowMembers rec 0 this.columns)))] ∧
    (∀ rec : record, (rowMembers rec 0 this.columns).length = this.columns.length) ∧
    (∀ (rec : record) (j : Nat), (rowMembers rec 0 this.columns)[j]? =
      (this.columns[j]?).map (fun col => (col.name, rec.getValue j))) ∧
    (∀ rec : record, JSONRow (rowMembers rec 0 this.columns) =
      [JSONEvent.beginObject] ++
        separated ((rowMembers rec 0 this.columns).map
          (fun m => [JSONEvent.nameValue m.1 m.2])) ++ [JSONEvent.endObject]) ∧
    (∀ rec : record, (JSONRow (rowMembers rec 0 this.columns)).count JSONEvent.valueSeparator =
      this.columns.length - 1) := by
  have hp : FormatUint pubsubid 10 = toString pubsubid := rfl
  refine ⟨?_, ?_, ?_, fun rec => rowMembers_length rec _ 0, fun rec j => ?_, fun rec => rfl,
    fun rec => ?_⟩
  · simp [sqlSelectResponse.toNetworkReadyJSON, data_eq, JSONObject, separated, JSONMember,
      JSONBuilder.networkReady, JSONBuilder.beginObject, JSONBuilder.endObject, JSONBuilder.ok,
      JSONBuilder.action, JSONBuilder.nameValue, JSONBuilder.valueSeparator,
      JSONBuilder.getNetworkBytes]
  · simp [sqlActionAddResponse.toNetworkReadyJSON,
      sqlActionDataResponse.toNetworkReadyJSONHelper, data_eq, hp, JSONObject, separated,
      JSONMember, JSONBuilder.networkReady, JSONBuilder.beginObject, JSONBuilder.endObject,
      JSONBuilder.ok, JSONBuilder.action, JSONBuilder.nameValue, JSONBuilder.valueSeparator,
      JSONBuilder.getNetworkBytes]
  · simp [sqlActionInsertResponse.toNetworkReadyJSON,
      sqlActionDataResponse.toNetworkReadyJSONHelper, data_eq, hp, JSONObject, separated,
      JSONMember, JSONBuilder.networkReady, JSONBuilder.beginObject, JSONBuilder.endObject,
      JSONBuilder.ok, JSONBuilder.action, JSONBuilder.nameValue, JSONBuilder.valueSeparator,
      JSONBuilder.getNetworkBytes]
  · have := rowMembers_getElem? rec this.columns 0 j
    simpa using this
  · rw [JSONRow_separators, rowMembers_length]

/-! ### Lexer: theorems -/

namespace Lexer

theorem isDigit_not_identStart (c : Char) (h : isDigit c = true) : isIdentStart c = false := by
  simp only [isDigit, decide_eq_true_eq] at h
  simp only [isIdentStart, isLetter, Bool.or_eq_false_iff, decide_eq_false_iff_not]
  refine ⟨by omega, ?_⟩
  intro hc
  rw [hc] at h
  revert h
  decide

/-- A delimiter of the items of a list: a comma or a closing parenthesis. -/
theorem startChar_comma :
    startChar comma = ([{ typ := .tokenTypeSqlComma, val := "," }], State.start) := by
  decide

theorem startChar_rightParenthesis :
    startChar rightParenthesis =
      ([{ typ := .tokenTypeSqlRightParenthesis, val := ")" }], State.start) := by
  decide

theorem startChar_leftParenthesis :
    startChar leftParenthesis =
      ([{ typ := .tokenTypeSqlLeftParenthesis, val := "(" }], State.start) := by
  decide

theorem startChar_space : startChar space = ([], State.start) := by
  decide

theorem run_cons (st : State) (c : Char) (cs : List Char) :
    run st (c :: cs) = (step st c).1 ++ run (step st c).2 cs := rfl

/-- A word that is being read ends before the first character that cannot continue it. -/
theorem run_word (d : Char) (rest : List Char) (hd : isIdentChar d = false) :
    ∀ (w acc : List Char), (∀ c ∈ w, isIdentChar c = true) →
      run (.word acc) (w ++ d :: rest) =
        wordToken (acc ++ w) :: ((startChar d).1 ++ run (startChar d).2 rest) := by
  intro w
  induction w with
  | nil =>
    intro acc _
    simp [run_cons, step, hd]
  | cons c w ih =>
    intro acc hw
    have hc : isIdentChar c = true := hw c (List.mem_cons_self _ _)
    have := ih (acc ++ [c]) (fun x hx => hw x (List.mem_cons_of_mem _ hx))
    simp only [List.cons_append, run_cons, step, hc, if_true, List.nil_append, this,
      List.append_assoc, List.singleton_append]

/-- The digits of a number that is being read end before the first character that is
neither a digit nor the decimal point. -/
theorem run_whole (d : Char) (rest : List Char) (hd : isDigit d = false) (hp : d ≠ dot) :
    ∀ (w acc : List Char), (∀ c ∈ w, isDigit c = true) →
      run (.whole acc) (w ++ d :: rest) =
        { typ := .tokenTypeSqlValue, val := String.mk (acc ++ w) } ::
          ((startChar d).1 ++ run (startChar d).2 rest) := by
  intro w
  induction w with
  | nil =>
    intro acc _
    simp [run_cons, step, hd, hp]
  | cons c w ih =>
    intro acc hw
    have hc : isDigit c = true := hw c (List.mem_cons_self _ _)
    have := ih (acc ++ [c]) (fun x hx => hw x (List.mem_cons_of_mem _ hx))
    simp only [List.cons_append, run_cons, step, hc, if_true, List.nil_append, this,
      List.append_assoc, List.singleton_append]

/-- The digits after the decimal point end before the first character that is not a
digit. -/
theorem run_fraction (d : Char) (rest : List Char) (hd : isDigit d = false) :
    ∀ (w acc : List Char), (∀ c ∈ w, isDigit c = true) →
      run (.fraction acc) (w ++ d :: rest) =
        { typ := .tokenTypeSqlValue, val := String.mk (acc ++ w) } ::
          ((startChar d).1 ++ run (startChar d).2 rest) := by
  intro w
  induction w with
  | nil =>
    intro acc _
    simp [run_cons, step, hd]
  | cons c w ih =>
    intro acc hw
    have hc : isDigit c = true := hw c (List.mem_cons_self _ _)
    have := ih (acc ++ [c]) (fun x hx => hw x (List.mem_cons_of_mem _ hx))
    simp only [List.cons_append, run_cons, step, hc, if_true, List.nil_append, this,
      List.append_assoc, List.singleton_append]

/-- The digits of a number followed by the decimal point and further digits. -/
theorem run_whole_point (w f : List Char) (d : Char) (rest : List Char)
    (hw : ∀ c ∈ w, isDigit c = true) (hf : ∀ c ∈ f, isDigit c = true) (hne : f ≠ [])
    (hd : isDigit d = false) (acc : List Char) :
    run (.whole acc) (w ++ dot :: (f ++ d :: rest)) =
      { typ := .tokenTypeSqlValue, val := String.mk (acc ++ w ++ dot :: f) } ::
        ((startChar d).1 ++ run (startChar d).2 rest) := by
  induction w generalizing acc with
  | nil =>
    cases f with
    | nil => exact absurd rfl hne
    | cons c f =>
      have hc : isDigit c = true := hf c (List.mem_cons_self _ _)
      have hdot : isDigit dot = false := by decide
      have := run_fraction d rest hd f (acc ++ [dot, c])
        (fun x hx => hf x (List.mem_cons_of_mem _ hx))
      simp only [List.nil_append, List.cons_append, run_cons, step, hdot, hc, if_true,
        Bool.false_eq_true, if_false, this, List.append_assoc, List.append_nil]
  | cons c w ih =>
    have hc : isDigit c = true := hw c (List.mem_cons_self _ _)
    have := ih (fun x hx => hw x (List.mem_cons_of_mem _ hx)) (acc ++ [c])
    simp only [List.cons_append, run_cons, step, hc, if_true, List.nil_append, this,
      List.append_assoc, List.singleton_append]

/-- A quoted string that is being read ends at the next quote. -/
theorem run_quoted (rest : List Char) :
    ∀ (s acc : List Char), (∀ c ∈ s, c ≠ quote) →
      run (.quoted acc) (s ++ quote :: rest) =
        { typ := .tokenTypeSqlValue, val := String.mk (acc ++ s) } :: run .start rest := by
  intro s
  induction s with
  | nil =>
    intro acc _
    simp [run_cons, step]
  | cons c s ih =>
    intro acc hs
    have hc : c ≠ quote := hs c (List.mem_cons_self _ _)
    have := ih (acc ++ [c]) (fun x hx => hs x (List.mem_cons_of_mem _ hx))
    simp only [List.cons_append, run_cons, step, hc, if_false, List.nil_append, this,
      List.append_assoc, List.singleton_append]

end Lexer

/-- A word at the start of a token, followed by a character that cannot continue it. -/
theorem Lexer.run_start_word (w : List Char) (d : Char) (rest : List Char)
    (hw : isWord w = true) (hd : Lexer.isIdentChar d = false) :
    Lexer.run .start (w ++ d :: rest) =
      Lexer.wordToken w :: ((Lexer.startChar d).1 ++ Lexer.run (Lexer.startChar d).2 rest) := by
  cases w with
  | nil => simp [isWord] at hw
  | cons c cs =>
    simp only [isWord, Bool.and_eq_true, List.all_eq_true] at hw
    have := Lexer.run_word d rest hd cs [c] hw.2
    simp only [List.cons_append, Lexer.run_cons, Lexer.step, Lexer.startChar, hw.1, if_true,
      List.nil_append, this, List.singleton_append]

theorem Lexer.wordToken_identifier (w : List Char)
    (h : (Lexer.wordToken w).typ = .tokenTypeSqlIdentifier) :
    Lexer.wordToken w = { typ := .tokenTypeSqlIdentifier, val := String.mk w } := by
  unfold Lexer.wordToken at h ⊢
  cases hk : Lexer.keyword (String.mk (w.map Char.toLower)) with
  | none => rfl
  | some k =>
    rw [hk] at h
    simp only at h
    simp only [h]

theorem isIdentChar_comma : Lexer.isIdentChar Lexer.comma = false := by decide
theorem isIdentChar_rightParenthesis : Lexer.isIdentChar Lexer.rightParenthesis = false := by
  decide
theorem isIdentChar_space : Lexer.isIdentChar Lexer.space = false := by decide

/-- An identifier lexes as its identifier token. -/
theorem LexesAs_identifier (w : String) (h : isIdentifier w = true) :
    LexesAs w.data (identifierToken w) := by
  simp only [isIdentifier, Bool.and_eq_true, decide_eq_true_eq] at h
  intro d rest hd
  have hdc : Lexer.isIdentChar d = false := by
    rcases hd with rfl | rfl
    · exact isIdentChar_comma
    · exact isIdentChar_rightParenthesis
  rw [Lexer.run_start_word w.data d rest h.1 hdc, Lexer.wordToken_identifier w.data h.2]
  rfl

/-- A well-formed value lexes as its token. -/
theorem LexesAs_value (v : sqlValueText) (h : v.wellFormed = true) :
    LexesAs v.text.data v.token := by
  intro d rest hd
  have hdd : Lexer.isDigit d = false := by
    rcases hd with rfl | rfl <;> decide
  have hdp : d ≠ Lexer.dot := by
    rcases hd with rfl | rfl <;> decide
  cases v with
  | bare w => exact LexesAs_identifier w h d rest hd
  | number whole fraction =>
    have hstart : ∀ (c : Char) (cs : List Char), Lexer.isDigit c = true →
        Lexer.run .start (c :: cs) = Lexer.run (.whole [c]) cs := by
      intro c cs hc
      simp [Lexer.run_cons, Lexer.step, Lexer.startChar, Lexer.isDigit_not_identStart c hc, hc]
    cases fraction with
    | none =>
      simp only [sqlValueText.wellFormed, isDigits, Bool.and_eq_true, decide_eq_true_eq,
        List.all_eq_true] at h
      simp only [sqlValueText.text, sqlValueText.token]
      rcases hw : whole.data with _ | ⟨c, cs⟩
      · exact absurd hw h.1
      · have hall : ∀ x ∈ c :: cs, Lexer.isDigit x = true := by rw [← hw]; exact h.2
        rw [List.cons_append, hstart c _ (hall c (List.mem_cons_self _ _)),
          Lexer.run_whole d rest hdd hdp cs [c] (fun x hx => hall x (List.mem_cons_of_mem _ hx))]
        have : whole = String.mk ([c] ++ cs) := by
          rw [List.singleton_append, ← hw]
        rw [this]
    | some f =>
      simp only [sqlValueText.wellFormed, isDigits, Bool.and_eq_true, decide_eq_true_eq,
        List.all_eq_true] at h
      simp only [sqlValueText.text, sqlValueText.token]
      have htext : (whole ++ "." ++ f).data = whole.data ++ Lexer.dot :: f.data := by
        simp only [String.data_append, List.append_assoc]
        rfl
      rw [htext]
      rcases hw : whole.data with _ | ⟨c, cs⟩
      · exact absurd hw h.1.1
      · have hall : ∀ x ∈ c :: cs, Lexer.isDigit x = true := by rw [← hw]; exact h.1.2
        have hshape : (c :: cs ++ Lexer.dot :: f.data) ++ d :: rest =
            c :: (cs ++ Lexer.dot :: (f.data ++ d :: rest)) := by
          simp only [List.cons_append, List.append_assoc]
        rw [hshape, hstart c _ (hall c (List.mem_cons_self _ _)),
          Lexer.run_whole_point cs f.data d rest
            (fun x hx => hall x (List.mem_cons_of_mem _ hx)) h.2.2 h.2.1 hdd [c]]
        have : whole ++ "." ++ f = String.mk ([c] ++ cs ++ Lexer.dot :: f.data) := by
          apply String.ext
          rw [htext, hw]
          rfl
        rw [this]
  | quoted s =>
    simp only [sqlValueText.wellFormed, List.all_eq_true, decide_eq_true_eq] at h
    simp only [sqlValueText.text, sqlValueText.token]
    have htext : ("\x27" ++ s ++ "\x27").data = Lexer.quote :: (s.data ++ [Lexer.quote]) := by
      simp only [String.data_append, List.append_assoc]
      rfl
    have hq : Lexer.startChar Lexer.quote = ([], Lexer.State.quoted []) := by decide
    rw [htext, List.cons_append, List.append_assoc, Lexer.run_cons, Lexer.step, hq,
      List.singleton_append, List.nil_append,
      Lexer.run_quoted (d :: rest) s.data [] (fun c hc => h c hc), Lexer.run_cons]
    rfl

/-- A list of items separated by a comma and a space, with or without a trailing comma,
up to the closing parenthesis, lexes as the tokens of the items with comma tokens between
them. -/
theorem run_items :
    ∀ (items : List (List Char × token)), (∀ it ∈ items, LexesAs it.1 it.2) →
      ∀ (b : Bool) (rest : List Char),
        Lexer.run .start (commaChars (items.map Prod.fst) ++
            (trailingChars b ++ Lexer.rightParenthesis :: rest)) =
          commaTokens (items.map Prod.snd) ++ (trailingComma b ++
            { typ := .tokenTypeSqlRightParenthesis, val := ")" } :: Lexer.run .start rest) := by
  intro items
  induction items with
  | nil =>
    intro _ b rest
    cases b
    · simp [commaChars, commaTokens, trailingChars, trailingComma, Lexer.run_cons, Lexer.step,
        Lexer.startChar_rightParenthesis]
    · simp [commaChars, commaTokens, trailingChars, trailingComma, Lexer.run_cons, Lexer.step,
        Lexer.startChar_rightParenthesis, Lexer.startChar_comma]
  | cons it items ih =>
    intro h b rest
    have hit := h it (List.mem_cons_self _ _)
    have ih1 := ih (fun x hx => h x (List.mem_cons_of_mem _ hx))
    cases items with
    | nil =>
      cases b
      · simp [commaChars, commaTokens, trailingChars, trailingComma,
          hit Lexer.rightParenthesis rest (Or.inr rfl), Lexer.startChar_rightParenthesis]
      · simp [commaChars, commaTokens, trailingChars, trailingComma,
          hit Lexer.comma _ (Or.inl rfl), Lexer.startChar_comma, Lexer.run_cons, Lexer.step,
          Lexer.startChar_rightParenthesis]
    | cons it2 items =>
      have := ih1 b rest
      simp only [List.map_cons] at this
      simp only [List.map_cons, commaChars, commaTokens, List.append_assoc, List.cons_append,
        hit Lexer.comma _ (Or.inl rfl), Lexer.startChar_comma, Lexer.run_cons, Lexer.step,
        Lexer.startChar_space, List.nil_append, List.singleton_append]
      rw [this]

theorem commaList_data :
    ∀ xs : List String, (commaList xs).data = commaChars (xs.map String.data) := by
  intro xs
  induction xs with
  | nil => rfl
  | cons x xs ih =>
    cases xs with
    | nil => rfl
    | cons y ys =>
      simp only [commaList, String.data_append, List.map_cons, commaChars, List.append_assoc]
      simp only [List.map_cons] at ih
      rw [ih]
      rfl

/-- The characters of `insertStatement`, word by word. -/
theorem insertStatement_data (t : String) (cols : List String) (vals : List sqlValueText)
    (colsComma valsComma : Bool) :
    (insertStatement t cols vals colsComma valsComma).data =
      "insert".data ++
        (Lexer.space :: ("into".data ++
        (Lexer.space :: (t.data ++
        (Lexer.space :: Lexer.leftParenthesis :: (commaChars (cols.map String.data) ++
        (trailingChars colsComma ++
        (Lexer.rightParenthesis :: Lexer.space :: ("values".data ++
        (Lexer.space :: Lexer.leftParenthesis ::
        (commaChars ((vals.map sqlValueText.text).map String.data) ++
        (trailingChars valsComma ++ [Lexer.rightParenthesis])))))))))))) := by
  have h1 : ("insert into " : String).data =
      "insert".data ++ Lexer.space :: ("into".data ++ [Lexer.space]) := by decide
  have h2 : (" (" : String).data = [Lexer.space, Lexer.leftParenthesis] := by decide
  have h3 : (") values (" : String).data =
      Lexer.rightParenthesis :: Lexer.space :: ("values".data ++
        [Lexer.space, Lexer.leftParenthesis]) := by decide
  have h4 : (")" : String).data = [Lexer.rightParenthesis] := by decide
  have h5 : ∀ b : Bool, (if b then "," else "" : String).data = trailingChars b := by
    intro b
    cases b <;> rfl
  simp only [insertStatement, String.data_append, commaList_data, h1, h2, h3, h4, h5,
    List.append_assoc, List.cons_append, List.nil_append, List.singleton_append]
  rfl

theorem isWord_of_isIdentifier (w : String) (h : isIdentifier w = true) :
    isWord w.data = true := by
  simp only [isIdentifier, Bool.and_eq_true] at h
  exact h.1

/-- The tokens of an insert statement whose table and columns are identifiers and whose
values are well formed. -/
theorem run_insertStatement (t : String) (cols : List String) (vals : List sqlValueText)
    (colsComma valsComma : Bool) (ht : isIdentifier t = true)
    (hc : ∀ c ∈ cols, isIdentifier c = true) (hv : ∀ v ∈ vals, v.wellFormed = true) :
    Lexer.run .start (insertStatement t cols vals colsComma valsComma).data =
      insertTokens t cols vals colsComma valsComma := by
  have hinsert : Lexer.wordToken "insert".data = { typ := .tokenTypeSqlInsert, val := "insert" } := by
    decide
  have hinto : Lexer.wordToken "into".data = { typ := .tokenTypeSqlInto, val := "into" } := by
    decide
  have hvalues : Lexer.wordToken "values".data =
      { typ := .tokenTypeSqlValues, val := "values" } := by
    decide
  have htok : Lexer.wordToken t.data = identifierToken t := by
    simp only [isIdentifier, Bool.and_eq_true, decide_eq_true_eq] at ht
    rw [Lexer.wordToken_identifier t.data ht.2]
    rfl
  have hcols := run_items (cols.map (fun c => (c.data, identifierToken c)))
    (by
      intro it hit
      simp only [List.mem_map] at hit
      obtain ⟨c, hcm, rfl⟩ := hit
      exact LexesAs_identifier c (hc c hcm))
  have hvals := run_items (vals.map (fun v => (v.text.data, v.token)))
    (by
      intro it hit
      simp only [List.mem_map] at hit
      obtain ⟨v, hvm, rfl⟩ := hit
      exact LexesAs_value v (hv v hvm))
  simp only [List.map_map, Function.comp_def] at hcols hvals
  have hend : Lexer.run .start [] = [{ typ := .tokenTypeEOF, val := "" }] := rfl
  rw [insertStatement_data,
    Lexer.run_start_word "insert".data Lexer.space _ (by decide) isIdentChar_space, hinsert,
    Lexer.startChar_space,
    Lexer.run_start_word "into".data Lexer.space _ (by decide) isIdentChar_space, hinto,
    Lexer.startChar_space,
    Lexer.run_start_word t.data Lexer.space _ (isWord_of_isIdentifier t ht) isIdentChar_space,
    htok, Lexer.startChar_space]
  simp only [List.nil_append, Lexer.run_cons, Lexer.step, Lexer.startChar_leftParenthesis,
    List.singleton_append, List.map_map, Function.comp_def]
  rw [hcols colsComma]
  simp only [Lexer.run_cons, Lexer.step, Lexer.startChar_space, List.nil_append]
  rw [Lexer.run_start_word "values".data Lexer.space _ (by decide) isIdentChar_space, hvalues,
    Lexer.startChar_space]
  simp only [List.nil_append, Lexer.run_cons, Lexer.step, Lexer.startChar_leftParenthesis,
    List.singleton_append]
  rw [hvals valsComma, hend]
  simp [insertTokens]

/-! ### Parser: theorems -/

theorem parseList_rightParenthesis (accept : token → Bool) (what : String)
    (hr : accept { typ := .tokenTypeSqlRightParenthesis, val := ")" } = false)
    (rest : List token) (acc : List String) :
    ∃ e, Parser.parseList accept what
      ({ typ := .tokenTypeSqlRightParenthesis, val := ")" } :: rest) acc = .error e := by
  cases rest with
  | nil =>
    simp only [Parser.parseList, hr, Bool.false_eq_true, if_false]
    exact ⟨_, rfl⟩
  | cons x rest =>
    simp only [Parser.parseList, hr, Bool.false_eq_true, if_false]
    exact ⟨_, rfl⟩

/-- A non-empty list of accepted items without a trailing comma is parsed into the values
of its items. -/
theorem parseList_ok (accept : token → Bool) (what : String) (rest : List token) :
    ∀ (items : List token), items ≠ [] → (∀ t ∈ items, accept t = true) →
      ∀ acc : List String,
        Parser.parseList accept what
          (commaTokens items ++ { typ := .tokenTypeSqlRightParenthesis, val := ")" } :: rest) acc =
        .ok (acc ++ items.map (fun t => t.val), rest) := by
  intro items
  induction items with
  | nil => intro h; exact absurd rfl h
  | cons x items ih =>
    intro _ hacc acc
    have hx := hacc x (List.mem_cons_self _ _)
    cases items with
    | nil => simp [commaTokens, Parser.parseList, hx]
    | cons y items =>
      have := ih (by simp) (fun t ht => hacc t (List.mem_cons_of_mem _ ht)) (acc ++ [x.val])
      show Parser.parseList accept what
        (x :: { typ := .tokenTypeSqlComma, val := "," } ::
          (commaTokens (y :: items) ++
            { typ := .tokenTypeSqlRightParenthesis, val := ")" } :: rest)) acc = _
      rw [Parser.parseList]
      simp only [hx, if_true]
      rw [this]
      simp

/-- An empty list and a list with a trailing comma are errors. -/
theorem parseList_error (accept : token → Bool) (what : String) (rest : List token)
    (hr : accept { typ := .tokenTypeSqlRightParenthesis, val := ")" } = false)
    (hcomma : accept { typ := .tokenTypeSqlComma, val := "," } = false) :
    ∀ (items : List token), (∀ t ∈ items, accept t = true) →
      ∀ (b : Bool) (acc : List String), items = [] ∨ b = true →
        ∃ e, Parser.parseList accept what
          (commaTokens items ++ (trailingComma b ++
            { typ := .tokenTypeSqlRightParenthesis, val := ")" } :: rest)) acc = .error e := by
  intro items
  induction items with
  | nil =>
    intro _ b acc _
    cases b
    · simpa [commaTokens, trailingComma] using parseList_rightParenthesis accept what hr rest acc
    · simp only [commaTokens, trailingComma, if_true, List.nil_append, List.singleton_append,
        Parser.parseList, hcomma, Bool.false_eq_true, if_false]
      exact ⟨_, rfl⟩
  | cons x items ih =>
    intro hacc b acc hb
    have hx := hacc x (List.mem_cons_self _ _)
    have hbt : b = true := by
      rcases hb with h | h
      · cases h
      · exact h
    subst hbt
    cases items with
    | nil =>
      obtain ⟨e, he⟩ := parseList_rightParenthesis accept what hr rest (acc ++ [x.val])
      refine ⟨e, ?_⟩
      show Parser.parseList accept what
        (x :: { typ := .tokenTypeSqlComma, val := "," } ::
          ({ typ := .tokenTypeSqlRightParenthesis, val := ")" } :: rest)) acc = _
      rw [Parser.parseList]
      simp only [hx, if_true]
      exact he
    | cons y items =>
      obtain ⟨e, he⟩ := ih (fun t ht => hacc t (List.mem_cons_of_mem _ ht)) true
        (acc ++ [x.val]) (Or.inr rfl)
      refine ⟨e, ?_⟩
      show Parser.parseList accept what
        (x :: { typ := .tokenTypeSqlComma, val := "," } ::
          (commaTokens (y :: items) ++ (trailingComma true ++
            { typ := .tokenTypeSqlRightParenthesis, val := ")" } :: rest))) acc = _
      rw [Parser.parseList]
      simp only [hx, if_true]
      exact he

theorem isSqlValue_token (v : sqlValueText) : Parser.isSqlValue v.token = true := by
  cases v with
  | bare w => rfl
  | number whole fraction => cases fraction <;> rfl
  | quoted s => rfl

theorem token_val (v : sqlValueText) : v.token.val = v.value := by
  cases v with
  | bare w => rfl
  | number whole fraction => cases fraction <;> rfl
  | quoted s => rfl

theorem parse_lex (s : String) :
    parse (lex s newTokens) = Parser.parseStatement (Lexer.run .start s.data) := by
  simp [parse, lex, consumeAll_eq, newTokens]

theorem parseColumns_ok (cols : List String) (rest : List token) (hne : cols ≠ []) :
    Parser.parseColumns (commaTokens (cols.map identifierToken) ++
      { typ := .tokenTypeSqlRightParenthesis, val := ")" } :: rest) = .ok (cols, rest) := by
  have := parseList_ok (fun t => decide (t.typ = .tokenTypeSqlIdentifier)) "column name" rest
    (cols.map identifierToken) (by simpa using hne)
    (by
      intro t ht
      simp only [List.mem_map] at ht
      obtain ⟨c, _, rfl⟩ := ht
      rfl) []
  simp only [List.map_map, Function.comp_def, identifierToken, List.map_id', List.nil_append]
    at this
  exact this

theorem parseValues_ok (vals : List sqlValueText) (rest : List token) (hne : vals ≠ []) :
    Parser.parseValues (commaTokens (vals.map sqlValueText.token) ++
      { typ := .tokenTypeSqlRightParenthesis, val := ")" } :: rest) =
      .ok (vals.map sqlValueText.value, rest) := by
  have := parseList_ok Parser.isSqlValue "value" rest (vals.map sqlValueText.token)
    (by simpa using hne)
    (by
      intro t ht
      simp only [List.mem_map] at ht
      obtain ⟨v, _, rfl⟩ := ht
      exact isSqlValue_token v) []
  simp only [List.map_map, Function.comp_def, token_val, List.nil_append] at this
  exact this

theorem parseColumns_error (cols : List String) (b : Bool) (rest : List token)
    (h : cols = [] ∨ b = true) :
    ∃ e, Parser.parseColumns (commaTokens (cols.map identifierToken) ++ (trailingComma b ++
      { typ := .tokenTypeSqlRightParenthesis, val := ")" } :: rest)) = .error e :=
  parseList_error (fun t => decide (t.typ = .tokenTypeSqlIdentifier)) "column name" rest
    (by decide) (by decide) (cols.map identifierToken)
    (by
      intro t ht
      simp only [List.mem_map] at ht
      obtain ⟨c, _, rfl⟩ := ht
      rfl) b [] (by simpa using h)

theorem parseValues_error (vals : List sqlValueText) (b : Bool) (rest : List token)
    (h : vals = [] ∨ b = true) :
    ∃ e, Parser.parseValues (commaTokens (vals.map sqlValueText.token) ++ (trailingComma b ++
      { typ := .tokenTypeSqlRightParenthesis, val := ")" } :: rest)) = .error e :=
  parseList_error Parser.isSqlValue "value" rest (by decide) (by decide)
    (vals.map sqlValueText.token)
    (by
      intro t ht
      simp only [List.mem_map] at ht
      obtain ⟨v, _, rfl⟩ := ht
      exact isSqlValue_token v) b [] (by simpa using h)

/-- The parse of the tokens of an insert statement, by the outcome of its two lists. -/
theorem parseStatement_insertTokens (t : String) (cols : List String)
    (vals : List sqlValueText) (colsComma valsComma : Bool) :
    Parser.parseStatement (insertTokens t cols vals colsComma valsComma) =
      match Parser.parseColumns (commaTokens (cols.map identifierToken) ++
          (trailingComma colsComma ++
            ({ typ := .tokenTypeSqlRightParenthesis, val := ")" } ::
             { typ := .tokenTypeSqlValues, val := "values" } ::
             { typ := .tokenTypeSqlLeftParenthesis, val := "(" } ::
             (commaTokens (vals.map sqlValueText.token) ++ (trailingComma valsComma ++
               [{ typ := .tokenTypeSqlRightParenthesis, val := ")" },
                { typ := .tokenTypeEOF, val := "" }]))))) with
      | .error err => .errorAction err
      | .ok (cs, rest) =>
        match rest with
        | values :: open2 :: rest =>
          if values.typ ≠ .tokenTypeSqlValues then
            .errorAction (Parser.expected "values" (some values))
          else if open2.typ ≠ .tokenTypeSqlLeftParenthesis then
            .errorAction (Parser.expected "(" (some open2))
          else
            match Parser.parseValues rest with
            | .error err => .errorAction err
            | .ok (vs, rest) =>
              if cs.length ≠ vs.length then
                .errorAction "number of values does not match number of columns"
              else
                Parser.parseEOF rest
                  (.sqlInsertAction t (List.zipWith (fun c v => { col := c, val := v }) cs vs))
        | _ => .errorAction (Parser.expected "values (" none) := by
  simp [insertTokens, Parser.parseStatement, Parser.parseSqlInsert, identifierToken]

/-- C12: for every table identifier `t`, every list of `n ≥ 1` column identifiers and every
list of `n` well-formed sql values (bare identifiers, numbers, single-quoted strings), the
parse of the tokens of `insert into t (c1, ..., cn) values (v1, ..., vn)` is the
`sqlInsertAction` whose table is `t` and whose `colVals` are the pairs of the columns and the
values, in that order, a quoted value without its quotes. -/
theorem parse_insert (t : String) (cols : List String) (vals : List sqlValueText)
    (ht : isIdentifier t = true) (hc : ∀ c ∈ cols, isIdentifier c = true)
    (hv : ∀ v ∈ vals, v.wellFormed = true) (hn : 1 ≤ cols.length)
    (hlen : cols.length = vals.length) :
    parse (lex (insertStatement t cols vals false false) newTokens) =
      .sqlInsertAction t (List.zipWith (fun c v => { col := c, val := v.value }) cols vals) := by
  have hcne : cols ≠ [] := by
    intro h
    rw [h] at hn
    simp at hn
  have hvne : vals ≠ [] := by
    intro h
    have : cols.length = 0 := by rw [hlen, h]; rfl
    omega
  rw [parse_lex, run_insertStatement t cols vals false false ht hc hv,
    parseStatement_insertTokens]
  simp only [trailingComma, Bool.false_eq_true, if_false, List.nil_append]
  rw [parseColumns_ok cols _ hcne]
  simp only [ne_eq, not_true_eq_false, if_false]
  rw [parseValues_ok vals _ hvne]
  simp only [List.length_map, hlen, ne_eq, not_true_eq_false, if_false, Parser.parseEOF,
    if_true, List.zipWith_map_right]

/-- C12 (witness): the statement of `TestParseSqlInsertStatement1`. -/
theorem parse_insert_witness :
    insertStatement "stocks" ["ticker", "bid", "ask"]
        [.bare "IBM", .number "12" none, .number "14" (some "5645")] false false =
      "insert into stocks (ticker, bid, ask) values (IBM, 12, 14.5645)" ∧
    parse (lex (insertStatement "stocks" ["ticker", "bid", "ask"]
        [.bare "IBM", .number "12" none, .number "14" (some "5645")] false false) newTokens) =
      .sqlInsertAction "stocks"
        (List.zipWith (fun c (v : sqlValueText) => { col := c, val := v.value })
          ["ticker", "bid", "ask"]
          [.bare "IBM", .number "12" none, .number "14" (some "5645")]) :=
  ⟨by decide,
   parse_insert "stocks" ["ticker", "bid", "ask"]
    [.bare "IBM", .number "12" none, .number "14" (some "5645")]
    (by decide) (by decide) (by decide) (by decide) (by decide)⟩

/-- C13: for every insert statement over a table identifier, column identifiers and
well-formed values whose value list has another number of entries than its column list,
whose column list is empty, or whose column list or value list ends in a trailing comma,
the parse of its tokens is an `errorAction` and not a `sqlInsertAction`. -/
theorem parse_malformed_insert (t : String) (cols : List String) (vals : List sqlValueText)
    (colsComma valsComma : Bool)
    (ht : isIdentifier t = true) (hc : ∀ c ∈ cols, isIdentifier c = true)
    (hv : ∀ v ∈ vals, v.wellFormed = true)
    (hbad : cols.length ≠ vals.length ∨ cols = [] ∨ colsComma = true ∨ valsComma = true) :
    (parse (lex (insertStatement t cols vals colsComma valsComma) newTokens)).isError = true ∧
    (parse (lex (insertStatement t cols vals colsComma valsComma) newTokens)).isInsert = false := by
  have key : ∃ e, parse (lex (insertStatement t cols vals colsComma valsComma) newTokens) =
      .errorAction e := by
    rw [parse_lex, run_insertStatement t cols vals colsComma valsComma ht hc hv,
      parseStatement_insertTokens]
    by_cases h1 : cols = [] ∨ colsComma = true
    · obtain ⟨e, he⟩ := parseColumns_error cols colsComma
        ({ typ := .tokenTypeSqlValues, val := "values" } ::
         { typ := .tokenTypeSqlLeftParenthesis, val := "(" } ::
         (commaTokens (vals.map sqlValueText.token) ++ (trailingComma valsComma ++
           [{ typ := .tokenTypeSqlRightParenthesis, val := ")" },
            { typ := .tokenTypeEOF, val := "" }]))) h1
      rw [he]
      exact ⟨e, rfl⟩
    · have hcne : cols ≠ [] := fun h => h1 (Or.inl h)
      have hcc : colsComma = false := by
        cases colsComma
        · rfl
        · exact absurd (Or.inr rfl) h1
      subst hcc
      simp only [trailingComma, Bool.false_eq_true, if_false, List.nil_append]
      rw [parseColumns_ok cols _ hcne]
      simp only [ne_eq, not_true_eq_false, if_false]
      by_cases h2 : vals = [] ∨ valsComma = true
      · obtain ⟨e, he⟩ := parseValues_error vals valsComma
          [{ typ := .tokenTypeEOF, val := "" }] h2
        simp only [trailingComma, List.singleton_append] at he
        have hshape : ∀ b : Bool,
            (if b = true then [({ typ := .tokenTypeSqlComma, val := "," } : token)] else []) ++
              [{ typ := .tokenTypeSqlRightParenthesis, val := ")" },
               { typ := .tokenTypeEOF, val := "" }] =
            (if b = true then [({ typ := .tokenTypeSqlComma, val := "," } : token)] else []) ++
              ({ typ := .tokenTypeSqlRightParenthesis, val := ")" } ::
               [{ typ := .tokenTypeEOF, val := "" }]) := fun _ => rfl
        rw [hshape, he]
        exact ⟨e, rfl⟩
      · have hvne : vals ≠ [] := fun h => h2 (Or.inl h)
        have hvc : valsComma = false := by
          cases valsComma
          · rfl
          · exact absurd (Or.inr rfl) h2
        subst hvc
        have hlen : cols.length ≠ vals.length := by
          rcases hbad with h | h | h | h
          · exact h
          · exact absurd h hcne
          · cases h
          · cases h
        simp only [Bool.false_eq_true, if_false, List.nil_append]
        rw [parseValues_ok vals _ hvne]
        simp only [List.length_map, ne_eq, hlen, not_false_eq_true, if_true]
        exact ⟨_, rfl⟩
  obtain ⟨e, he⟩ := key
  rw [he]
  exact ⟨rfl, rfl⟩

/-- C13 (witness): a statement of `TestParseSqlInsertStatement2`, two columns and one
value. -/
theorem parse_malformed_insert_witness :
    insertStatement "stocks" ["col1", "col2"] [.bare "val1"] false false =
      "insert into stocks (col1, col2) values (val1)" ∧
    ((parse (lex (insertStatement "stocks" ["col1", "col2"] [.bare "val1"] false false)
        newTokens)).isError = true ∧
     (parse (lex (insertStatement "stocks" ["col1", "col2"] [.bare "val1"] false false)
        newTokens)).isInsert = false) :=
  ⟨by decide,
   parse_malformed_insert "stocks" ["col1", "col2"] [.bare "val1"] false false
    (by decide) (by decide) (by decide) (Or.inl (by decide))⟩

/-- The insert statements of parser_test.go, as they are written there:
`TestParseSqlInsertStatement1` yields the expected `sqlInsertAction`, and every statement
of `TestParseSqlInsertStatement2` yields an `errorAction`. -/
theorem parser_test_insert_statements :
    parse (lex " insert into stocks (ticker, bid, ask) values (IBM, 12, 14.5645) " newTokens) =
      .sqlInsertAction "stocks"
        [{ col := "ticker", val := "IBM" }, { col := "bid", val := "12" },
         { col := "ask", val := "14.5645" }] ∧
    ([" insert ", " insert into  ", " insert int ", " insert into stocks ",
      " insert into stocks ( ", " insert into stocks () ", " insert into stocks (col1,) ",
      " insert into stocks (col1, col2 ", " insert into stocks (col1, col2) value ",
      " insert into stocks (col1, col2) values ",
      " insert into stocks (col1, col2) values (val1)",
      " insert into stocks (col1, col2) values (val1, val2, ",
      " insert into stocks (col1, col2) values (val1, val2, val3) "].all
        (fun s => (parse (lex s newTokens)).isError)) = true := by
  decide

end PubSubSQL
